import Mathlib

/-!
Undo framework of OpenCPN (`src/undo.cpp`)

A shallow embedding of the undo/redo controller (`class Undo`), of the action
records it stores (`class UndoAction`) and of the three replayers.

Memory model:

* A pointer (`UndoItemPointer`, i.e. `void*`) is an address, a natural number;
  `NULL` is address `0`.
* The program memory is a family of typed heaps (one per object type), each a
  total map from addresses to values: dereferencing never faults.
* `new` takes the next address of a bump allocator, so a fresh object never
  shares its address with an older one.
* `delete` runs the destructor and appends the address to a release log (and
  does nothing for a null pointer).  The storage keeps its last contents, so
  that what the controller does with a pointer it has already deleted can be
  traced.
* Indexing a `std::vector` or the `std::deque` out of range has no value to
  read: such a run has no result (`none`).  A failing `assert` has no result
  either, unless the program was built with `NDEBUG`.
* A `double` is only ever copied by this code, never computed with; it is
  represented by its bit pattern.
* `stackpointer` and `depthSetting` are `unsigned int`.  `stackpointer` is only
  incremented when it is below `undoStack.size()` and only decremented when it
  is positive, so it never wraps around and is a natural number here.
-/

namespace OpenCPN

/-! ## Data model -/

/-- An address: `UndoItemPointer` is `void*` in the source. -/
abbrev Ptr := Nat

/-- The null pointer. -/
def NULL : Ptr := 0

/-- Bit pattern of a C++ `double`. -/
abbrev Double := Nat

/-- Update of a typed heap at one address. -/
def upd {α : Type} (h : Ptr → α) (p : Ptr) (v : α) : Ptr → α :=
  fun q => if q = p then v else h q

/-- The kinds of undoable action, as they occur in the `switch` statements. -/
inductive UndoType where
  | Undo_CreateWaypoint
  | Undo_DeleteWaypoint
  | Undo_MoveWaypoint
  deriving DecidableEq

/-- Ownership tag of a `before` entry, as it occurs in the `switch` statements. -/
inductive UndoBeforePointerType where
  | Undo_IsOrphanded
  | Undo_NeedsCopy
  | Undo_HasParent
  deriving DecidableEq

/-- The fields of `class UndoAction` that `undo.cpp` uses. -/
structure UndoAction where
  type : UndoType
  before : List Ptr
  beforeType : List UndoBeforePointerType
  after : List Ptr
  selectable : List Ptr
  deriving DecidableEq

/-- The fields of a `RoutePoint` that `undo.cpp` uses. -/
structure RoutePoint where
  m_lat : Double
  m_lon : Double
  deriving DecidableEq

/-- A `wxRealPoint`: the position snapshot of a move. -/
structure wxRealPoint where
  x : Double
  y : Double
  deriving DecidableEq

/-- The fields of a `SelectItem` (an entry of the spatial index) that matter
here: its position and the object it stands for. -/
structure SelectItem where
  m_slat : Double
  m_slon : Double
  m_pData1 : Ptr
  deriving DecidableEq

/-- One entry of the release log: which `delete` expression ran, on which address. -/
inductive Released where
  | action (p : Ptr)
  | realPoint (p : Ptr)
  | routePoint (p : Ptr)
  deriving DecidableEq

/-- Everything outside the `Undo` object: the typed heaps, the allocator, the
release log, and the collaborators reached through the `extern` globals. -/
structure World where
  /-- heap of `UndoAction` objects -/
  actions : Ptr → UndoAction
  /-- heap of `wxRealPoint` objects -/
  realPoints : Ptr → wxRealPoint
  /-- heap of `RoutePoint` objects -/
  routePoints : Ptr → RoutePoint
  /-- heap of `SelectItem` objects -/
  selectItems : Ptr → SelectItem
  /-- next address handed out by `new` -/
  next : Ptr
  /-- the `delete` expressions executed so far, oldest first -/
  released : List Released
  /-- whether `assert` is compiled out -/
  ndebug : Bool
  /-- `pSelect`: the entries of the spatial index -/
  selectList : List Ptr
  /-- `pConfig`: the persisted waypoint store -/
  configWayPoints : List Ptr
  /-- `pWayPointMan->m_pWayPointList`; `none` when `pWayPointMan` is `NULL` -/
  wayPointList : Option (List Ptr)
  /-- `pRouteManagerDialog && pRouteManagerDialog->IsShown()` -/
  dialogShown : Bool
  /-- number of `UpdateWptListCtrl()` calls so far -/
  wptListCtrlUpdates : Nat
  /-- `g_pRouteMan->GetRouteArrayContaining`; `none` for a `NULL` result -/
  routesContaining : Ptr → Option (List Ptr)
  /-- routes recomputed and persisted so far, oldest first -/
  routeUpdates : List Ptr

/-- The data members of `class Undo`. -/
structure Undo where
  depthSetting : Nat
  stackpointer : Nat
  isInsideUndoableAction : Bool
  candidate : Ptr
  undoStack : List Ptr
  deriving DecidableEq

/-! ## Collaborators -/

/-- Modelled from the spec: `Select::AddSelectableRoutePoint` is not part of
`undo.cpp`; spatial index `insert(position, objectRef)` makes a new entry for
the object at the given position. -/
def AddSelectableRoutePoint (lat lon : Double) (point : Ptr) (w : World) : World :=
  { w with
    selectItems := upd w.selectItems w.next ⟨lat, lon, point⟩
    selectList := w.selectList ++ [w.next]
    next := w.next + 1 }

/-- Modelled from the spec: `Select::DeleteSelectablePoint` is not part of
`undo.cpp`; spatial index `remove(objectRef)` removes the entries of the object. -/
def DeleteSelectablePoint (point : Ptr) (w : World) : World :=
  { w with
    selectList := w.selectList.filter (fun q => decide ((w.selectItems q).m_pData1 ≠ point)) }

/-- Modelled from the spec: `MyConfig::AddNewWayPoint` is not part of
`undo.cpp`; persisted waypoint store `add(objectRef)`. -/
def AddNewWayPoint (point : Ptr) (w : World) : World :=
  { w with configWayPoints := w.configWayPoints ++ [point] }

/-- Modelled from the spec: `MyConfig::DeleteWayPoint` is not part of
`undo.cpp`; persisted waypoint store `remove(objectRef)`. -/
def DeleteWayPoint (point : Ptr) (w : World) : World :=
  { w with configWayPoints := w.configWayPoints.filter (fun q => decide (q ≠ point)) }

/-- Modelled from the spec: the list class behind `m_pWayPointList` is not part
of `undo.cpp`; managed object list `append(objectRef)`, skipped when
`pWayPointMan` is `NULL`. -/
def wayPointListAppend (point : Ptr) (w : World) : World :=
  match w.wayPointList with
  | none => w
  | some l => { w with wayPointList := some (l ++ [point]) }

/-- Modelled from the spec: the list class behind `m_pWayPointList` is not part
of `undo.cpp`; managed object list `detach(objectRef)`, skipped when
`pWayPointMan` is `NULL`. -/
def wayPointListDeleteObject (point : Ptr) (w : World) : World :=
  match w.wayPointList with
  | none => w
  | some l => { w with wayPointList := some (l.filter (fun q => decide (q ≠ point))) }

/-- Modelled from the spec: `RouteManagerDialog::UpdateWptListCtrl` is not part
of `undo.cpp`; the optional UI refresh hook, run only when the dialog exists
and is shown. -/
def UpdateWptListCtrl (w : World) : World :=
  if w.dialogShown then { w with wptListCtrlUpdates := w.wptListCtrlUpdates + 1 } else w

/-- Modelled from the spec: `Routeman` and `Route` are not part of `undo.cpp`;
every container referencing the waypoint is recomputed and persisted. -/
def updateRoutesContaining (point : Ptr) (w : World) : World :=
  match w.routesContaining point with
  | none => w
  | some routes => { w with routeUpdates := w.routeUpdates ++ routes }

/-! ## `UndoAction::~UndoAction` and `delete` -/

/-- The loop of `UndoAction::~UndoAction`: entry `i` of `before` is released
according to `beforeType[i]` and the record kind, unless it is `NULL`. -/
def releaseEntries (type : UndoType) :
    List Ptr → List UndoBeforePointerType → List Released → Option (List Released)
  | [], _, log => some log
  | _ :: _, [], _ => none
  | b :: bs, t :: ts, log =>
    match t, type with
    | .Undo_NeedsCopy, .Undo_MoveWaypoint =>
      releaseEntries type bs ts (if b = NULL then log else log ++ [Released.realPoint b])
    | .Undo_IsOrphanded, .Undo_DeleteWaypoint =>
      releaseEntries type bs ts (if b = NULL then log else log ++ [Released.routePoint b])
    | _, _ => releaseEntries type bs ts log

/-- The expression `delete p` for an `UndoAction* p`, which does nothing for a
null pointer: the destructor asserts that `before` and `beforeType` have the
same size, releases the owned entries, clears `before`; then the record itself
is released. -/
def deleteUndoAction (p : Ptr) (w : World) : Option World :=
  if p = NULL then some w
  else if !w.ndebug && decide ((w.actions p).before.length ≠ (w.actions p).beforeType.length)
  then none
  else
    match releaseEntries (w.actions p).type (w.actions p).before (w.actions p).beforeType
        w.released with
    | none => none
    | some log =>
      some { w with
        actions := upd w.actions p { w.actions p with before := [] }
        released := log ++ [Released.action p] }

/-! ## Replayers -/

/-- The function `doUndoMoveWaypoint`. -/
def doUndoMoveWaypoint (action : Ptr) (w : World) : Option World :=
  match (w.actions action).after.head?, (w.actions action).before.head?,
    (w.actions action).selectable.head? with
  | some currentPoint, some lastPoint, some selectable =>
    let lat := (w.routePoints currentPoint).m_lat
    let lon := (w.routePoints currentPoint).m_lon
    let last := w.realPoints lastPoint
    let w1 := { w with routePoints := upd w.routePoints currentPoint ⟨last.y, last.x⟩ }
    let w2 := { w1 with realPoints := upd w1.realPoints lastPoint ⟨lon, lat⟩ }
    let w3 := { w2 with
      selectItems := upd w2.selectItems selectable
        { w2.selectItems selectable with
          m_slat := (w2.routePoints currentPoint).m_lat
          m_slon := (w2.routePoints currentPoint).m_lon } }
    some (updateRoutesContaining currentPoint w3)
  | _, _, _ => none

/-- The function `doUndoDeleteWaypoint`: attach the waypoint again. -/
def doUndoDeleteWaypoint (action : Ptr) (w : World) : Option World :=
  match (w.actions action).before.head? with
  | some point =>
    let w1 := AddSelectableRoutePoint (w.routePoints point).m_lat (w.routePoints point).m_lon point w
    let w2 := AddNewWayPoint point w1
    let w3 := wayPointListAppend point w2
    some (UpdateWptListCtrl w3)
  | none => none

/-- The function `doRedoDeleteWaypoint`: detach the waypoint. -/
def doRedoDeleteWaypoint (action : Ptr) (w : World) : Option World :=
  match (w.actions action).before.head? with
  | some point =>
    let w1 := DeleteWayPoint point w
    let w2 := DeleteSelectablePoint point w1
    let w3 := wayPointListDeleteObject point w2
    some (UpdateWptListCtrl w3)
  | none => none

/-! ## The controller `class Undo` -/

/-- The constructor `Undo::Undo`; `candidate` is left uninitialised by the
source and is represented by `NULL`. -/
def Undo.new : Undo :=
  { depthSetting := 10, stackpointer := 0, isInsideUndoableAction := false,
    candidate := NULL, undoStack := [] }

/-- The loop of `Undo::~Undo` (and, without the `switch`, the one of
`InvalidateRedo`): `delete` each record in turn. -/
def deleteAll : List Ptr → World → Option World
  | [], w => some w
  | p :: ps, w =>
    match deleteUndoAction p w with
    | none => none
    | some w1 => deleteAll ps w1

/-- The destructor `Undo::~Undo`. -/
def Undo.destroy (u : Undo) (w : World) : Option World :=
  deleteAll u.undoStack w

/-- The method `Undo::AnythingToUndo`. -/
def Undo.AnythingToUndo (u : Undo) : Bool :=
  decide (u.undoStack.length > u.stackpointer)

/-- The method `Undo::AnythingToRedo`. -/
def Undo.AnythingToRedo (u : Undo) : Bool :=
  decide (u.stackpointer > 0)

/-- The method `Undo::GetNextUndoableAction`. -/
def Undo.GetNextUndoableAction (u : Undo) : Option Ptr :=
  u.undoStack.get? u.stackpointer

/-- The method `Undo::GetNextRedoableAction`.  With `stackpointer` 0 the
unsigned index `stackpointer-1` wraps around to the largest `unsigned int`,
which is out of range. -/
def Undo.GetNextRedoableAction (u : Undo) : Option Ptr :=
  if u.stackpointer = 0 then none else u.undoStack.get? (u.stackpointer - 1)

/-- The statement `undoStack[i]->before[0] = NULL`. -/
def clearBefore0 (p : Ptr) (w : World) : Option World :=
  match (w.actions p).before with
  | [] => none
  | _ :: bs => some { w with actions := upd w.actions p { w.actions p with before := NULL :: bs } }

/-- The loop of `Undo::InvalidateRedo` over the records `undoStack[0]`, ...,
`undoStack[stackpointer-1]`. -/
def invalidateLoop : List Ptr → World → Option World
  | [], w => some w
  | p :: ps, w =>
    let w1 :=
      match (w.actions p).type with
      | .Undo_DeleteWaypoint => clearBefore0 p w
      | .Undo_CreateWaypoint => some w
      | .Undo_MoveWaypoint => some w
    match w1 with
    | none => none
    | some w1 =>
      match deleteUndoAction p w1 with
      | none => none
      | some w2 => invalidateLoop ps w2

/-- The method `Undo::InvalidateRedo`. -/
def Undo.InvalidateRedo (u : Undo) (w : World) : Option (Undo × World) :=
  if u.stackpointer = 0 then some (u, w)
  else if u.stackpointer ≤ u.undoStack.length then
    match invalidateLoop (u.undoStack.take u.stackpointer) w with
    | none => none
    | some w1 =>
      some ({ u with undoStack := u.undoStack.drop u.stackpointer, stackpointer := 0 }, w1)
  else none

/-- The method `Undo::InvalidateUndo`. -/
def Undo.InvalidateUndo (u : Undo) : Undo :=
  { u with undoStack := [], stackpointer := 0 }

/-- The replayer that `Undo::UndoLastAction` calls for a record, by its kind
(the `switch` of that method without the cursor step). -/
def dispatchUndo (action : Ptr) (w : World) : Option World :=
  match (w.actions action).type with
  | .Undo_CreateWaypoint => doRedoDeleteWaypoint action w
  | .Undo_MoveWaypoint => doUndoMoveWaypoint action w
  | .Undo_DeleteWaypoint => doUndoDeleteWaypoint action w

/-- The replayer that `Undo::RedoNextAction` calls for a record, by its kind
(the `switch` of that method without the cursor step). -/
def dispatchRedo (action : Ptr) (w : World) : Option World :=
  match (w.actions action).type with
  | .Undo_CreateWaypoint => doUndoDeleteWaypoint action w
  | .Undo_MoveWaypoint => doUndoMoveWaypoint action w
  | .Undo_DeleteWaypoint => doRedoDeleteWaypoint action w

/-- The method `Undo::UndoLastAction`. -/
def Undo.UndoLastAction (u : Undo) (w : World) : Option (Bool × Undo × World) :=
  if !u.AnythingToUndo then some (false, u, w)
  else
    match u.GetNextUndoableAction with
    | none => none
    | some action =>
      match (w.actions action).type with
      | .Undo_CreateWaypoint =>
        match doRedoDeleteWaypoint action w with
        | none => none
        | some w1 => some (true, { u with stackpointer := u.stackpointer + 1 }, w1)
      | .Undo_MoveWaypoint =>
        match doUndoMoveWaypoint action w with
        | none => none
        | some w1 => some (true, { u with stackpointer := u.stackpointer + 1 }, w1)
      | .Undo_DeleteWaypoint =>
        match doUndoDeleteWaypoint action w with
        | none => none
        | some w1 => some (true, { u with stackpointer := u.stackpointer + 1 }, w1)

/-- The method `Undo::RedoNextAction`. -/
def Undo.RedoNextAction (u : Undo) (w : World) : Option (Bool × Undo × World) :=
  if !u.AnythingToRedo then some (false, u, w)
  else
    match u.GetNextRedoableAction with
    | none => none
    | some action =>
      match (w.actions action).type with
      | .Undo_CreateWaypoint =>
        match doUndoDeleteWaypoint action w with
        | none => none
        | some w1 => some (true, { u with stackpointer := u.stackpointer - 1 }, w1)
      | .Undo_MoveWaypoint =>
        match doUndoMoveWaypoint action w with
        | none => none
        | some w1 => some (true, { u with stackpointer := u.stackpointer - 1 }, w1)
      | .Undo_DeleteWaypoint =>
        match doRedoDeleteWaypoint action w with
        | none => none
        | some w1 => some (true, { u with stackpointer := u.stackpointer - 1 }, w1)

/-- The capture step of `Undo::BeforeUndoableAction`: the `subject` stored as
the `before` entry.  Only a move that needs a copy allocates a `wxRealPoint`
holding the position of the waypoint; every other case keeps the pointer. -/
def captureSubject (type : UndoType) (before : Ptr) (beforeType : UndoBeforePointerType)
    (w : World) : Ptr × World :=
  match beforeType with
  | .Undo_NeedsCopy =>
    match type with
    | .Undo_MoveWaypoint =>
      (w.next,
       { w with
         realPoints := upd w.realPoints w.next
           ⟨(w.routePoints before).m_lon, (w.routePoints before).m_lat⟩
         next := w.next + 1 })
    | .Undo_CreateWaypoint => (before, w)
    | .Undo_DeleteWaypoint => (before, w)
  | .Undo_IsOrphanded => (before, w)
  | .Undo_HasParent => (before, w)

/-- The method `Undo::BeforeUndoableAction`. -/
def Undo.BeforeUndoableAction (type : UndoType) (before : Ptr)
    (beforeType : UndoBeforePointerType) (selectable : Ptr) (u : Undo) (w : World) :
    Option (Bool × Undo × World) :=
  if u.isInsideUndoableAction then
    match deleteUndoAction u.candidate w with
    | none => none
    | some w1 => some (false, u, w1)
  else
    match u.InvalidateRedo w with
    | none => none
    | some (u1, w1) =>
      let candidate := w1.next
      let w2 := { w1 with
        actions := upd w1.actions candidate
          { type := type, before := [], beforeType := [], after := [], selectable := [] }
        next := w1.next + 1 }
      let (subject, w3) := captureSubject type before beforeType w2
      let w4 := { w3 with
        actions := upd w3.actions candidate
          { w3.actions candidate with
            before := (w3.actions candidate).before ++ [subject]
            beforeType := (w3.actions candidate).beforeType ++ [beforeType]
            selectable := (w3.actions candidate).selectable ++ [selectable] } }
      some (true, { u1 with candidate := candidate, isInsideUndoableAction := true }, w4)

/-- The method `Undo::AfterUndoableAction`. -/
def Undo.AfterUndoableAction (after : Ptr) (u : Undo) (w : World) :
    Option (Bool × Undo × World) :=
  if !u.isInsideUndoableAction then some (false, u, w)
  else
    let w1 := { w with
      actions := upd w.actions u.candidate
        { w.actions u.candidate with after := (w.actions u.candidate).after ++ [after] } }
    let stack := u.candidate :: u.undoStack
    let stack := if stack.length > u.depthSetting then stack.dropLast else stack
    some (true, { u with undoStack := stack, isInsideUndoableAction := false }, w1)

/-! ## Sequences of calls -/

/-- One call of the public interface of the controller. -/
inductive Call where
  | Begin (type : UndoType) (before : Ptr) (beforeType : UndoBeforePointerType)
      (selectable : Ptr)
  | Commit (after : Ptr)
  | UndoCall
  | RedoCall
  | ClearAll

/-- Perform one call; the boolean is the value the call returns
(`InvalidateUndo` returns nothing, which is represented by `true`). -/
def step : Call → Undo → World → Option (Bool × Undo × World)
  | .Begin type before beforeType selectable, u, w =>
    u.BeforeUndoableAction type before beforeType selectable w
  | .Commit after, u, w => u.AfterUndoableAction after w
  | .UndoCall, u, w => u.UndoLastAction w
  | .RedoCall, u, w => u.RedoNextAction w
  | .ClearAll, u, w => some (true, u.InvalidateUndo, w)

/-- Perform a sequence of calls, oldest first, ignoring the returned values. -/
def run : List Call → Undo → World → Option (Undo × World)
  | [], u, w => some (u, w)
  | c :: cs, u, w =>
    match step c u w with
    | none => none
    | some (_, u1, w1) => run cs u1 w1

/-- The `[0]` entries the replayer of a record reads are there: `before[0]`
for every kind, and also `after[0]` and `selectable[0]` for a move. -/
def hasEntries (a : UndoAction) : Bool :=
  !a.before.isEmpty &&
    (match a.type with
     | .Undo_MoveWaypoint => !a.after.isEmpty && !a.selectable.isEmpty
     | .Undo_CreateWaypoint => true
     | .Undo_DeleteWaypoint => true)

/-- A world with nothing in it, for concrete runs. -/
def World.blank : World :=
  { actions := fun _ => ⟨.Undo_CreateWaypoint, [], [], [], []⟩
    realPoints := fun _ => ⟨0, 0⟩
    routePoints := fun _ => ⟨0, 0⟩
    selectItems := fun _ => ⟨0, 0, NULL⟩
    next := 100
    released := []
    ndebug := false
    selectList := []
    configWayPoints := []
    wayPointList := some []
    dialogShown := false
    wptListCtrlUpdates := 0
    routesContaining := fun _ => none
    routeUpdates := [] }

/-- The controller and world after a sequence of calls on a freshly constructed
controller in the blank world (the fresh state itself when the run has no result). -/
def afterCalls (calls : List Call) : Undo × World :=
  (run calls Undo.new World.blank).getD (Undo.new, World.blank)

/-- A move of waypoint `1` committed and undone: the calls used as a concrete run. -/
def moveUndone : List Call :=
  [.Begin .Undo_MoveWaypoint 1 .Undo_NeedsCopy 2, .Commit 1, .UndoCall]

/-- A move of waypoint `1` committed: the calls used as a concrete run. -/
def moveCommitted : List Call :=
  [.Begin .Undo_MoveWaypoint 1 .Undo_NeedsCopy 2, .Commit 1]

/-- The caller moves waypoint `p` to a new position. -/
def moveTo (p : Ptr) (pos : RoutePoint) (w : World) : World :=
  { w with routePoints := upd w.routePoints p pos }

/-- Two worlds differ at most in the stored `UndoAction` records and in the
release log: every domain object, the allocator and every collaborator are the same. -/
def sameDomain (w w1 : World) : Prop :=
  w1.realPoints = w.realPoints ∧ w1.routePoints = w.routePoints ∧
  w1.selectItems = w.selectItems ∧ w1.next = w.next ∧ w1.ndebug = w.ndebug ∧
  w1.selectList = w.selectList ∧ w1.configWayPoints = w.configWayPoints ∧
  w1.wayPointList = w.wayPointList ∧ w1.dialogShown = w.dialogShown ∧
  w1.wptListCtrlUpdates = w.wptListCtrlUpdates ∧
  w1.routesContaining = w.routesContaining ∧ w1.routeUpdates = w.routeUpdates

/-- The arguments of one Begin/Commit pair. -/
structure Action where
  type : UndoType
  before : Ptr
  beforeType : UndoBeforePointerType
  selectable : Ptr
  after : Ptr

/-- Perform Begin/Commit pairs one after the other, with no other call in
between.  Each pair must succeed (else there is no result).  The trace lists,
oldest first, the record each pair committed and the value of
`AnythingToRedo()` immediately after its `Commit`. -/
def commitAll : List Action → Undo → World → Option (List (Ptr × Bool) × Undo × World)
  | [], u, w => some ([], u, w)
  | a :: rest, u, w =>
    match u.BeforeUndoableAction a.type a.before a.beforeType a.selectable w with
    | some (true, u1, w1) =>
      match u1.AfterUndoableAction a.after w1 with
      | some (true, u2, w2) =>
        match commitAll rest u2 w2 with
        | some (trace, u3, w3) => some ((u1.candidate, u2.AnythingToRedo) :: trace, u3, w3)
        | none => none
      | _ => none
    | _ => none

/-- Three actions on waypoint `1`: a creation and two moves. -/
def threeActions : List Action :=
  [⟨.Undo_CreateWaypoint, 1, .Undo_HasParent, 2, 1⟩,
   ⟨.Undo_MoveWaypoint, 1, .Undo_NeedsCopy, 2, 1⟩,
   ⟨.Undo_MoveWaypoint, 1, .Undo_NeedsCopy, 2, 1⟩]

/-- The history holds pairwise distinct, allocated records, and an open
candidate is allocated and not in the history. -/
def histInv (u : Undo) (w : World) : Prop :=
  u.undoStack.Nodup ∧ (∀ q ∈ u.undoStack, q < w.next) ∧
  (u.isInsideUndoableAction = true → u.candidate < w.next ∧ u.candidate ∉ u.undoStack)

/-- Record `p` is allocated, is not in the history and is not the open candidate. -/
def gone (p : Ptr) (u : Undo) (w : World) : Prop :=
  p < w.next ∧ p ∉ u.undoStack ∧ (u.isInsideUndoableAction = true → u.candidate ≠ p)

/-- A move committed and undone, then a new `Begin`: the branch point. -/
def moveBranched : List Call :=
  moveUndone ++ [.Begin .Undo_CreateWaypoint 3 .Undo_HasParent 4]

/-- A `Begin` followed by a second `Begin` while the transaction is open. -/
def beginTwice : List Call :=
  [.Begin .Undo_MoveWaypoint 1 .Undo_NeedsCopy 2, .Begin .Undo_MoveWaypoint 1 .Undo_NeedsCopy 2]

/-- A committed move, then a new `Begin` and an `Undo()` before its `Commit`. -/
def undoInsideTransaction : List Call :=
  moveCommitted ++ [.Begin .Undo_MoveWaypoint 1 .Undo_NeedsCopy 2, .UndoCall]

/-- The cursor invariant of the history. -/
def cursorInv (u : Undo) : Prop :=
  u.stackpointer ≤ u.undoStack.length ∧ u.undoStack.length ≤ u.depthSetting

/-- The bit pattern of the `double` 1.0. -/
def one : Double := 4607182418800017408

/-- The bit pattern of the `double` 2.0. -/
def two : Double := 4611686018427387904

/-- What the application does around the controller: a call of its interface,
or a move of a waypoint to a new position. -/
inductive Event where
  | call (c : Call)
  | move (p : Ptr) (pos : RoutePoint)

/-- Perform a sequence of events, oldest first, ignoring the returned values. -/
def play : List Event → Undo → World → Option (Undo × World)
  | [], u, w => some (u, w)
  | .call c :: es, u, w =>
    match step c u w with
    | none => none
    | some (_, u1, w1) => play es u1 w1
  | .move p pos :: es, u, w => play es u (moveTo p pos w)

/-- A freshly constructed controller whose depth is set to 2. -/
def depthTwo : Undo :=
  { Undo.new with depthSetting := 2 }

/-- The controller and world after a sequence of events on `depthTwo` in the
blank world, where every waypoint is at (0, 0). -/
def afterEvents (es : List Event) : Undo × World :=
  (play es depthTwo World.blank).getD (depthTwo, World.blank)

/-- Waypoint `1` (A) with spatial-index entry `2` is moved from (0, 0) to
(1, 1) and then from (1, 1) to (2, 2), each move inside its own transaction. -/
def twoMoves : List Event :=
  [.call (.Begin .Undo_MoveWaypoint 1 .Undo_NeedsCopy 2), .move 1 ⟨one, one⟩,
   .call (.Commit 1),
   .call (.Begin .Undo_MoveWaypoint 1 .Undo_NeedsCopy 2), .move 1 ⟨two, two⟩,
   .call (.Commit 1)]

/-- The two moves, then `Undo`, `Undo`, a failing `Undo`, and `Redo`. -/
def twoMovesReplayed : List Event :=
  twoMoves ++ [.call .UndoCall, .call .UndoCall, .call .UndoCall, .call .RedoCall]

/-- The replayed scenario followed by the creation of waypoint `3` (B). -/
def thenCreate : List Event :=
  twoMovesReplayed ++
    [.call (.Begin .Undo_CreateWaypoint 3 .Undo_HasParent 4), .call (.Commit 3)]

/-- The blank world of a program built with `NDEBUG`: `assert` is compiled out. -/
def World.blankRelease : World :=
  { World.blank with ndebug := true }

/-- The controller and world after a sequence of calls on a freshly constructed
controller in the blank world of an `NDEBUG` build. -/
def afterCallsRelease (calls : List Call) : Undo × World :=
  (run calls Undo.new World.blankRelease).getD (Undo.new, World.blankRelease)

/-- A `Begin` followed by two more `Begin` calls while the transaction is open. -/
def beginThrice : List Call :=
  beginTwice ++ [.Begin .Undo_MoveWaypoint 1 .Undo_NeedsCopy 2]

/-- A `Begin`, a second `Begin` while the transaction is open, then `Commit`. -/
def beginTwiceCommit : List Call :=
  beginTwice ++ [.Commit 1]

/-- The same committed move of waypoint `1`, `n` times in a row. -/
def movesCommitted : Nat → List Call
  | 0 => []
  | n + 1 => .Begin .Undo_MoveWaypoint 1 .Undo_NeedsCopy 2 :: .Commit 1 :: movesCommitted n

/-- The waypoint has an entry in the spatial index. -/
def inSpatialIndex (point : Ptr) (w : World) : Prop :=
  ∃ q ∈ w.selectList, (w.selectItems q).m_pData1 = point

/-- The waypoint is in the persisted waypoint store. -/
def inStore (point : Ptr) (w : World) : Prop :=
  point ∈ w.configWayPoints

/-- The waypoint is in the managed waypoint list (which must exist). -/
def inWayPointList (point : Ptr) (w : World) : Prop :=
  ∃ l, w.wayPointList = some l ∧ point ∈ l

/-- The blank world of a program in which `pWayPointMan` is `NULL`. -/
def World.blankNoManager : World :=
  { World.blank with wayPointList := none }

/-- A creation of waypoint `1` committed, undone and redone. -/
def createReplayed : List Call :=
  [.Begin .Undo_CreateWaypoint 1 .Undo_HasParent 2, .Commit 1, .UndoCall, .RedoCall]

/-- What the destructor releases for one `before` entry `b` with mode tag `t`
in a record of kind `type`. -/
def ownedRelease (type : UndoType) (t : UndoBeforePointerType) (b : Ptr) : List Released :=
  match t, type with
  | .Undo_NeedsCopy, .Undo_MoveWaypoint => if b = NULL then [] else [Released.realPoint b]
  | .Undo_IsOrphanded, .Undo_DeleteWaypoint => if b = NULL then [] else [Released.routePoint b]
  | _, _ => []

/-- A creation of waypoint `1` with an `Orphaned` before entry, committed and
undone, then a new `Begin`. -/
def createBranched : List Call :=
  [.Begin .Undo_CreateWaypoint 1 .Undo_IsOrphanded 2, .Commit 1, .UndoCall,
   .Begin .Undo_MoveWaypoint 5 .Undo_NeedsCopy 6]

/-- The controller and world after a sequence of calls on a freshly constructed
controller in the blank world without waypoint manager. -/
def afterCallsNoManager (calls : List Call) : Undo × World :=
  (run calls Undo.new World.blankNoManager).getD (Undo.new, World.blankNoManager)

/-- A record as the replayers expect it: exactly one `before` entry, one mode
tag, one `after` entry and one `selectable` entry. -/
def fullRecord (a : UndoAction) : Prop :=
  a.before.length = 1 ∧ a.beforeType.length = 1 ∧ a.after.length = 1 ∧
  a.selectable.length = 1

/-- A candidate between its `Begin` and its `Commit`: as a full record, but
with no `after` entry yet. -/
def openRecord (a : UndoAction) : Prop :=
  a.before.length = 1 ∧ a.beforeType.length = 1 ∧ a.after.length = 0 ∧
  a.selectable.length = 1

/-- The call is not a `Begin` issued while a transaction is open. -/
def beginIsIdle : Call → Undo → Bool
  | .Begin _ _ _ _, u => !u.isInsideUndoableAction
  | _, _ => true

/-- In the run of `calls` from `(u, w)`, `Begin` is never called while a
transaction is open. -/
def idleBegins : List Call → Undo → World → Bool
  | [], _, _ => true
  | c :: cs, u, w =>
    beginIsIdle c u &&
    (match step c u w with
     | none => true
     | some (_, u1, w1) => idleBegins cs u1 w1)

/-- The invariant of runs without re-entrant `Begin`: `histInv`, the cursor
within the history, every record of the history full, an open candidate open. -/
def safeInv (u : Undo) (w : World) : Prop :=
  histInv u w ∧ u.stackpointer ≤ u.undoStack.length ∧
  (∀ p ∈ u.undoStack, fullRecord (w.actions p)) ∧
  (u.isInsideUndoableAction = true → openRecord (w.actions u.candidate))

/-- A creation, a move and a deletion of waypoint `1` committed, the last two
undone, one redone, and a new `Begin`: a run without re-entrant `Begin`. -/
def mixedRun : List Call :=
  [.Begin .Undo_CreateWaypoint 1 .Undo_HasParent 2, .Commit 1,
   .Begin .Undo_MoveWaypoint 1 .Undo_NeedsCopy 2, .Commit 1,
   .Begin .Undo_DeleteWaypoint 1 .Undo_IsOrphanded 2, .Commit 1,
   .UndoCall, .UndoCall, .RedoCall,
   .Begin .Undo_MoveWaypoint 1 .Undo_NeedsCopy 2, .Commit 1, .UndoCall]

/-- The detach effect in the words of the spec (sections 4.2 and 6): the object
is removed from the spatial index, from the persisted waypoint store and from
the managed list if there is one, and the list control is refreshed if the
dialog is shown.  Nothing else changes.  It is written field by field and uses
none of the replayers. -/
def specDetach (point : Ptr) (w : World) : World :=
  { w with
    selectList := w.selectList.filter (fun q => decide ((w.selectItems q).m_pData1 ≠ point))
    configWayPoints := w.configWayPoints.filter (fun q => decide (q ≠ point))
    wayPointList := w.wayPointList.map (fun l => l.filter (fun q => decide (q ≠ point)))
    wptListCtrlUpdates :=
      if w.dialogShown then w.wptListCtrlUpdates + 1 else w.wptListCtrlUpdates }

/-- The attach effect in the words of the spec (sections 4.2 and 6): a new
spatial-index entry for the object at the object's position, the object added
to the persisted waypoint store and appended to the managed list if there is
one, and the list control refreshed if the dialog is shown.  Nothing else
changes.  It is written field by field and uses none of the replayers. -/
def specAttach (point : Ptr) (w : World) : World :=
  { w with
    selectItems := upd w.selectItems w.next
      ⟨(w.routePoints point).m_lat, (w.routePoints point).m_lon, point⟩
    selectList := w.selectList ++ [w.next]
    next := w.next + 1
    configWayPoints := w.configWayPoints ++ [point]
    wayPointList := w.wayPointList.map (fun l => l ++ [point])
    wptListCtrlUpdates :=
      if w.dialogShown then w.wptListCtrlUpdates + 1 else w.wptListCtrlUpdates }

/-- The swap effect in the words of the spec (section 4.2): the position of the
live waypoint `p` and the stored snapshot `pt` are exchanged, the auxiliary
spatial-index entry `aux` gets the new position of the waypoint, and every
route containing the waypoint is recomputed and persisted.  Nothing else
changes.  It is written field by field and uses none of the replayers. -/
def specSwap (p pt aux : Ptr) (w : World) : World :=
  { w with
    routePoints := upd w.routePoints p ⟨(w.realPoints pt).y, (w.realPoints pt).x⟩
    realPoints := upd w.realPoints pt ⟨(w.routePoints p).m_lon, (w.routePoints p).m_lat⟩
    selectItems := upd w.selectItems aux
      ⟨(w.realPoints pt).y, (w.realPoints pt).x, (w.selectItems aux).m_pData1⟩
    routeUpdates := w.routeUpdates ++ (w.routesContaining p).getD [] }

/-! ## Elementary facts about the model -/

theorem upd_same {α : Type} (h : Ptr → α) (p : Ptr) (v : α) : upd h p v p = v := by
  simp [upd]

theorem upd_other {α : Type} (h : Ptr → α) (p q : Ptr) (v : α) (hq : q ≠ p) :
    upd h p v q = h q := by
  simp [upd, hq]

theorem doUndoMoveWaypoint_actions (action : Ptr) (w w1 : World)
    (h : doUndoMoveWaypoint action w = some w1) : w1.actions = w.actions := by
  unfold doUndoMoveWaypoint at h
  split at h
  · simp only [Option.some.injEq] at h
    subst h
    unfold updateRoutesContaining
    split <;> rfl
  · exact absurd h (by simp)

theorem doUndoDeleteWaypoint_actions (action : Ptr) (w w1 : World)
    (h : doUndoDeleteWaypoint action w = some w1) : w1.actions = w.actions := by
  unfold doUndoDeleteWaypoint at h
  split at h
  · simp only [Option.some.injEq] at h
    subst h
    unfold UpdateWptListCtrl wayPointListAppend AddNewWayPoint AddSelectableRoutePoint
    split <;> split <;> rfl
  · exact absurd h (by simp)

theorem doRedoDeleteWaypoint_actions (action : Ptr) (w w1 : World)
    (h : doRedoDeleteWaypoint action w = some w1) : w1.actions = w.actions := by
  unfold doRedoDeleteWaypoint at h
  split at h
  · simp only [Option.some.injEq] at h
    subst h
    unfold UpdateWptListCtrl wayPointListDeleteObject DeleteSelectablePoint DeleteWayPoint
    split <;> split <;> rfl
  · exact absurd h (by simp)

theorem dispatchUndo_actions (action : Ptr) (w w1 : World)
    (h : dispatchUndo action w = some w1) : w1.actions = w.actions := by
  unfold dispatchUndo at h
  split at h
  · exact doRedoDeleteWaypoint_actions _ _ _ h
  · exact doUndoMoveWaypoint_actions _ _ _ h
  · exact doUndoDeleteWaypoint_actions _ _ _ h

theorem dispatchRedo_actions (action : Ptr) (w w1 : World)
    (h : dispatchRedo action w = some w1) : w1.actions = w.actions := by
  unfold dispatchRedo at h
  split at h
  · exact doUndoDeleteWaypoint_actions _ _ _ h
  · exact doUndoMoveWaypoint_actions _ _ _ h
  · exact doRedoDeleteWaypoint_actions _ _ _ h

theorem head_of_ne_nil {α : Type} (l : List α) (h : l.isEmpty = false) :
    ∃ x, l.head? = some x := by
  cases l with
  | nil => simp at h
  | cons x xs => exact ⟨x, rfl⟩

theorem dispatchUndo_defined (action : Ptr) (w : World)
    (h : hasEntries (w.actions action) = true) : ∃ w1, dispatchUndo action w = some w1 := by
  unfold hasEntries at h
  unfold dispatchUndo
  cases ht : (w.actions action).type <;> simp only [ht, Bool.and_eq_true, Bool.not_eq_true',
      Bool.and_true] at h ⊢
  · obtain ⟨x, hx⟩ := head_of_ne_nil _ h
    exact ⟨_, by simp only [doRedoDeleteWaypoint, hx]; rfl⟩
  · obtain ⟨x, hx⟩ := head_of_ne_nil _ h
    exact ⟨_, by simp only [doUndoDeleteWaypoint, hx]; rfl⟩
  · obtain ⟨x, hx⟩ := head_of_ne_nil _ h.1
    obtain ⟨y, hy⟩ := head_of_ne_nil _ h.2.1
    obtain ⟨z, hz⟩ := head_of_ne_nil _ h.2.2
    exact ⟨_, by simp only [doUndoMoveWaypoint, hx, hy, hz]; rfl⟩

theorem dispatchRedo_defined (action : Ptr) (w : World)
    (h : hasEntries (w.actions action) = true) : ∃ w1, dispatchRedo action w = some w1 := by
  unfold hasEntries at h
  unfold dispatchRedo
  cases ht : (w.actions action).type <;> simp only [ht, Bool.and_eq_true, Bool.not_eq_true',
      Bool.and_true] at h ⊢
  · obtain ⟨x, hx⟩ := head_of_ne_nil _ h
    exact ⟨_, by simp only [doUndoDeleteWaypoint, hx]; rfl⟩
  · obtain ⟨x, hx⟩ := head_of_ne_nil _ h
    exact ⟨_, by simp only [doRedoDeleteWaypoint, hx]; rfl⟩
  · obtain ⟨x, hx⟩ := head_of_ne_nil _ h.1
    obtain ⟨y, hy⟩ := head_of_ne_nil _ h.2.1
    obtain ⟨z, hz⟩ := head_of_ne_nil _ h.2.2
    exact ⟨_, by simp only [doUndoMoveWaypoint, hx, hy, hz]; rfl⟩

/-- What `Undo.UndoLastAction` computes when there is something to undo: the
undo effect of the record at index `stackpointer`, then one step of the cursor. -/
theorem UndoLastAction_eq (u : Undo) (w : World) (action : Ptr)
    (hlt : u.stackpointer < u.undoStack.length)
    (ha : u.undoStack.get? u.stackpointer = some action) :
    u.UndoLastAction w =
      (dispatchUndo action w).map
        (fun w1 => (true, { u with stackpointer := u.stackpointer + 1 }, w1)) := by
  unfold Undo.UndoLastAction Undo.AnythingToUndo Undo.GetNextUndoableAction dispatchUndo
  simp only [gt_iff_lt, hlt, decide_True, Bool.not_true, Bool.false_eq_true, ↓reduceIte, ha]
  cases (w.actions action).type
  · cases doRedoDeleteWaypoint action w <;> rfl
  · cases doUndoDeleteWaypoint action w <;> rfl
  · cases doUndoMoveWaypoint action w <;> rfl

/-- What `Undo.RedoNextAction` computes when there is something to redo: the
redo effect of the record at index `stackpointer - 1`, then one step back of
the cursor. -/
theorem RedoNextAction_eq (u : Undo) (w : World) (action : Ptr)
    (hpos : 0 < u.stackpointer)
    (ha : u.undoStack.get? (u.stackpointer - 1) = some action) :
    u.RedoNextAction w =
      (dispatchRedo action w).map
        (fun w1 => (true, { u with stackpointer := u.stackpointer - 1 }, w1)) := by
  unfold Undo.RedoNextAction Undo.AnythingToRedo Undo.GetNextRedoableAction dispatchRedo
  simp only [gt_iff_lt, hpos, decide_True, Bool.not_true, Bool.false_eq_true, ↓reduceIte, ha,
    Nat.pos_iff_ne_zero.mp hpos]
  cases (w.actions action).type
  · cases doUndoDeleteWaypoint action w <;> rfl
  · cases doRedoDeleteWaypoint action w <;> rfl
  · cases doUndoMoveWaypoint action w <;> rfl

theorem UndoLastAction_nothing (u : Undo) (w : World)
    (h : u.undoStack.length ≤ u.stackpointer) : u.UndoLastAction w = some (false, u, w) := by
  unfold Undo.UndoLastAction Undo.AnythingToUndo
  simp [Nat.not_lt.mpr h]

theorem RedoNextAction_nothing (u : Undo) (w : World)
    (h : u.stackpointer = 0) : u.RedoNextAction w = some (false, u, w) := by
  unfold Undo.RedoNextAction Undo.AnythingToRedo
  simp [h]

theorem InvalidateRedo_undo (u u1 : Undo) (w w1 : World)
    (h : u.InvalidateRedo w = some (u1, w1)) :
    u1 = { u with undoStack := u.undoStack.drop u.stackpointer, stackpointer := 0 } := by
  unfold Undo.InvalidateRedo at h
  split at h
  · rename_i h0
    simp only [Option.some.injEq, Prod.mk.injEq] at h
    rw [← h.1]
    cases u
    simp only at h0
    simp [h0]
  · split at h
    · split at h
      · exact absurd h (by simp)
      · simp only [Option.some.injEq, Prod.mk.injEq] at h
        exact h.1.symm
    · exact absurd h (by simp)

theorem BeforeUndoableAction_undo (type : UndoType) (before : Ptr)
    (beforeType : UndoBeforePointerType) (selectable : Ptr) (u u1 : Undo) (w w1 : World)
    (r : Bool) (h : u.BeforeUndoableAction type before beforeType selectable w = some (r, u1, w1)) :
    (u.isInsideUndoableAction = true ∧ r = false ∧ u1 = u) ∨
    (u.isInsideUndoableAction = false ∧ r = true ∧
      u1 = { u with undoStack := u.undoStack.drop u.stackpointer, stackpointer := 0,
                    candidate := u1.candidate, isInsideUndoableAction := true }) := by
  unfold Undo.BeforeUndoableAction at h
  split at h
  · rename_i hf
    split at h
    · exact absurd h (by simp)
    · simp only [Option.some.injEq, Prod.mk.injEq] at h
      exact Or.inl ⟨hf, h.1.symm, h.2.1.symm⟩
  · rename_i hf
    split at h
    · exact absurd h (by simp)
    · rename_i u2 w2 hinv
      have hu2 := InvalidateRedo_undo _ _ _ _ hinv
      simp only [Option.some.injEq, Prod.mk.injEq] at h
      refine Or.inr ⟨by simpa using hf, h.1.symm, ?_⟩
      rw [← h.2.1, hu2]

theorem AfterUndoableAction_undo (after : Ptr) (u u1 : Undo) (w w1 : World) (r : Bool)
    (h : u.AfterUndoableAction after w = some (r, u1, w1)) :
    (u.isInsideUndoableAction = false ∧ r = false ∧ u1 = u ∧ w1 = w) ∨
    (u.isInsideUndoableAction = true ∧ r = true ∧
      u1 = { u with
        undoStack :=
          if (u.candidate :: u.undoStack).length > u.depthSetting
          then (u.candidate :: u.undoStack).dropLast else u.candidate :: u.undoStack,
        isInsideUndoableAction := false }) := by
  unfold Undo.AfterUndoableAction at h
  split at h
  · rename_i hf
    simp only [Option.some.injEq, Prod.mk.injEq] at h
    exact Or.inl ⟨by simpa using hf, h.1.symm, h.2.1.symm, h.2.2.symm⟩
  · rename_i hf
    simp only [Option.some.injEq, Prod.mk.injEq] at h
    exact Or.inr ⟨by simpa using hf, h.1.symm, h.2.1.symm⟩

theorem UndoLastAction_undo (u u1 : Undo) (w w1 : World) (r : Bool)
    (h : u.UndoLastAction w = some (r, u1, w1)) :
    (u.undoStack.length ≤ u.stackpointer ∧ r = false ∧ u1 = u ∧ w1 = w) ∨
    (u.stackpointer < u.undoStack.length ∧ r = true ∧
      u1 = { u with stackpointer := u.stackpointer + 1 }) := by
  rcases Nat.lt_or_ge u.stackpointer u.undoStack.length with hlt | hge
  · obtain ⟨action, ha⟩ : ∃ action, u.undoStack.get? u.stackpointer = some action :=
      ⟨_, List.get?_eq_get hlt⟩
    rw [UndoLastAction_eq u w action hlt ha] at h
    cases he : dispatchUndo action w with
    | none => rw [he] at h; exact absurd h (by simp)
    | some w2 =>
      rw [he] at h
      simp only [Option.map_some', Option.some.injEq, Prod.mk.injEq] at h
      exact Or.inr ⟨hlt, h.1.symm, h.2.1.symm⟩
  · rw [UndoLastAction_nothing u w hge] at h
    simp only [Option.some.injEq, Prod.mk.injEq] at h
    exact Or.inl ⟨hge, h.1.symm, h.2.1.symm, h.2.2.symm⟩

theorem RedoNextAction_undo (u u1 : Undo) (w w1 : World) (r : Bool)
    (h : u.RedoNextAction w = some (r, u1, w1)) :
    (u.stackpointer = 0 ∧ r = false ∧ u1 = u ∧ w1 = w) ∨
    (0 < u.stackpointer ∧ r = true ∧
      u1 = { u with stackpointer := u.stackpointer - 1 }) := by
  rcases Nat.eq_zero_or_pos u.stackpointer with h0 | hpos
  · rw [RedoNextAction_nothing u w h0] at h
    simp only [Option.some.injEq, Prod.mk.injEq] at h
    exact Or.inl ⟨h0, h.1.symm, h.2.1.symm, h.2.2.symm⟩
  · cases ha : u.undoStack.get? (u.stackpointer - 1) with
    | none =>
      unfold Undo.RedoNextAction Undo.AnythingToRedo Undo.GetNextRedoableAction at h
      simp only [gt_iff_lt, hpos, decide_True, Bool.not_true, Bool.false_eq_true, ↓reduceIte,
        ha, Nat.pos_iff_ne_zero.mp hpos] at h
      exact absurd h (by simp)
    | some action =>
      rw [RedoNextAction_eq u w action hpos ha] at h
      cases he : dispatchRedo action w with
      | none => rw [he] at h; exact absurd h (by simp)
      | some w2 =>
        rw [he] at h
        simp only [Option.map_some', Option.some.injEq, Prod.mk.injEq] at h
        exact Or.inr ⟨hpos, h.1.symm, h.2.1.symm⟩

/-- Every call keeps the cursor invariant and the depth setting. -/
theorem step_cursorInv (c : Call) (u u1 : Undo) (w w1 : World) (r : Bool)
    (h : step c u w = some (r, u1, w1)) (hi : cursorInv u) :
    cursorInv u1 ∧ u1.depthSetting = u.depthSetting := by
  obtain ⟨h1, h2⟩ := hi
  cases c with
  | Begin type before beforeType selectable =>
    rcases BeforeUndoableAction_undo _ _ _ _ _ _ _ _ _ h with ⟨_, _, hu⟩ | ⟨_, _, hu⟩
    · subst hu; exact ⟨⟨h1, h2⟩, rfl⟩
    · rw [hu]
      refine ⟨⟨Nat.zero_le _, ?_⟩, rfl⟩
      show (u.undoStack.drop u.stackpointer).length ≤ u.depthSetting
      rw [List.length_drop]; omega
  | Commit after =>
    rcases AfterUndoableAction_undo _ _ _ _ _ _ h with ⟨_, _, hu, _⟩ | ⟨_, _, hu⟩
    · subst hu; exact ⟨⟨h1, h2⟩, rfl⟩
    · rw [hu]
      refine ⟨⟨?_, ?_⟩, rfl⟩
      · show u.stackpointer ≤ (if (u.candidate :: u.undoStack).length > u.depthSetting
          then (u.candidate :: u.undoStack).dropLast else u.candidate :: u.undoStack).length
        split
        · rw [List.length_dropLast, List.length_cons]; omega
        · rw [List.length_cons]; omega
      · show (if (u.candidate :: u.undoStack).length > u.depthSetting
          then (u.candidate :: u.undoStack).dropLast else u.candidate :: u.undoStack).length
            ≤ u.depthSetting
        split
        · rw [List.length_dropLast, List.length_cons]; omega
        · rename_i hn
          rw [List.length_cons] at hn ⊢; omega
  | UndoCall =>
    rcases UndoLastAction_undo _ _ _ _ _ h with ⟨_, _, hu, _⟩ | ⟨hlt, _, hu⟩
    · subst hu; exact ⟨⟨h1, h2⟩, rfl⟩
    · rw [hu]
      exact ⟨⟨hlt, h2⟩, rfl⟩
  | RedoCall =>
    rcases RedoNextAction_undo _ _ _ _ _ h with ⟨_, _, hu, _⟩ | ⟨hlt, _, hu⟩
    · subst hu; exact ⟨⟨h1, h2⟩, rfl⟩
    · rw [hu]
      exact ⟨⟨Nat.le_trans (Nat.sub_le _ _) h1, h2⟩, rfl⟩
  | ClearAll =>
    simp only [step, Option.some.injEq, Prod.mk.injEq] at h
    rw [← h.2.1]
    exact ⟨⟨Nat.le_refl _, Nat.zero_le _⟩, rfl⟩

theorem run_cursorInv (calls : List Call) (u u1 : Undo) (w w1 : World)
    (h : run calls u w = some (u1, w1)) (hi : cursorInv u) :
    cursorInv u1 ∧ u1.depthSetting = u.depthSetting := by
  induction calls generalizing u w with
  | nil =>
    simp only [run, Option.some.injEq, Prod.mk.injEq] at h
    rw [← h.1]; exact ⟨hi, rfl⟩
  | cons c cs ih =>
    simp only [run] at h
    split at h
    · exact absurd h (by simp)
    · rename_i r u2 w2 hs
      obtain ⟨hi2, hd2⟩ := step_cursorInv c u u2 w w2 r hs hi
      obtain ⟨hi3, hd3⟩ := ih u2 w2 h hi2
      exact ⟨hi3, hd3.trans hd2⟩

theorem sameDomain_refl (w : World) : sameDomain w w :=
  ⟨rfl, rfl, rfl, rfl, rfl, rfl, rfl, rfl, rfl, rfl, rfl, rfl⟩

theorem sameDomain_trans (w w1 w2 : World) (h1 : sameDomain w w1) (h2 : sameDomain w1 w2) :
    sameDomain w w2 := by
  obtain ⟨a1, a2, a3, a4, a5, a6, a7, a8, a9, a10, a11, a12⟩ := h1
  obtain ⟨b1, b2, b3, b4, b5, b6, b7, b8, b9, b10, b11, b12⟩ := h2
  exact ⟨b1.trans a1, b2.trans a2, b3.trans a3, b4.trans a4, b5.trans a5, b6.trans a6,
    b7.trans a7, b8.trans a8, b9.trans a9, b10.trans a10, b11.trans a11, b12.trans a12⟩

theorem deleteUndoAction_sameDomain (p : Ptr) (w w1 : World)
    (h : deleteUndoAction p w = some w1) : sameDomain w w1 := by
  unfold deleteUndoAction at h
  split at h
  · simp only [Option.some.injEq] at h
    subst h
    exact sameDomain_refl w
  · split at h
    · exact absurd h (by simp)
    · split at h
      · exact absurd h (by simp)
      · simp only [Option.some.injEq] at h
        subst h
        exact sameDomain_refl w

theorem clearBefore0_sameDomain (p : Ptr) (w w1 : World)
    (h : clearBefore0 p w = some w1) : sameDomain w w1 := by
  unfold clearBefore0 at h
  split at h
  · exact absurd h (by simp)
  · simp only [Option.some.injEq] at h
    subst h
    exact sameDomain_refl w

theorem invalidateLoop_sameDomain (ps : List Ptr) (w w1 : World)
    (h : invalidateLoop ps w = some w1) : sameDomain w w1 := by
  induction ps generalizing w with
  | nil =>
    simp only [invalidateLoop, Option.some.injEq] at h
    subst h
    exact sameDomain_refl w
  | cons p ps ih =>
    simp only [invalidateLoop] at h
    split at h
    · exact absurd h (by simp)
    · rename_i wa hwa
      have hsa : sameDomain w wa := by
        split at hwa
        · exact clearBefore0_sameDomain _ _ _ hwa
        · simp only [Option.some.injEq] at hwa; subst hwa; exact sameDomain_refl w
        · simp only [Option.some.injEq] at hwa; subst hwa; exact sameDomain_refl w
      split at h
      · exact absurd h (by simp)
      · rename_i wb hwb
        exact sameDomain_trans _ _ _ (sameDomain_trans _ _ _ hsa
          (deleteUndoAction_sameDomain _ _ _ hwb)) (ih wb h)

theorem InvalidateRedo_sameDomain (u u1 : Undo) (w w1 : World)
    (h : u.InvalidateRedo w = some (u1, w1)) : sameDomain w w1 := by
  unfold Undo.InvalidateRedo at h
  split at h
  · simp only [Option.some.injEq, Prod.mk.injEq] at h
    rw [← h.2]
    exact sameDomain_refl w
  · split at h
    · split at h
      · exact absurd h (by simp)
      · rename_i wa hwa
        simp only [Option.some.injEq, Prod.mk.injEq] at h
        rw [← h.2]
        exact invalidateLoop_sameDomain _ _ _ hwa
    · exact absurd h (by simp)

/-- What a successful `BeforeUndoableAction` for a move with `Undo_NeedsCopy`
leaves behind: the candidate record and the snapshot of the position. -/
theorem BeforeUndoableAction_move_copy (p aux : Ptr) (u u1 : Undo) (w w1 : World)
    (h : u.BeforeUndoableAction .Undo_MoveWaypoint p .Undo_NeedsCopy aux w
      = some (true, u1, w1)) :
    u1 = { u with undoStack := u.undoStack.drop u.stackpointer, stackpointer := 0,
                  candidate := w.next, isInsideUndoableAction := true } ∧
    w1.actions w.next = ⟨.Undo_MoveWaypoint, [w.next + 1], [.Undo_NeedsCopy], [], [aux]⟩ ∧
    w1.realPoints (w.next + 1) = ⟨(w.routePoints p).m_lon, (w.routePoints p).m_lat⟩ ∧
    w1.routePoints = w.routePoints := by
  unfold Undo.BeforeUndoableAction at h
  split at h
  · split at h
    · exact absurd h (by simp)
    · simp at h
  · split at h
    · exact absurd h (by simp)
    · rename_i ua wa hinv
      have hu := InvalidateRedo_undo _ _ _ _ hinv
      obtain ⟨_, hrp, _, hnext, _⟩ := InvalidateRedo_sameDomain _ _ _ _ hinv
      simp only [captureSubject, Option.some.injEq, Prod.mk.injEq, true_and] at h
      obtain ⟨h1, h2⟩ := h
      subst h1 h2
      refine ⟨?_, ?_, ?_, ?_⟩
      · rw [hu, hnext]
      · simp [upd, hnext]
      · simp [upd, hnext, hrp]
      · exact hrp

/-- One application of the move replayer on a record whose three `[0]`
entries are `p`, `pt` and `aux`. -/
theorem doUndoMoveWaypoint_swap (c p pt aux : Ptr) (w : World)
    (ha : (w.actions c).after.head? = some p)
    (hb : (w.actions c).before.head? = some pt)
    (hs : (w.actions c).selectable.head? = some aux) :
    ∃ w1, doUndoMoveWaypoint c w = some w1 ∧ w1.actions = w.actions ∧
      w1.routePoints p = ⟨(w.realPoints pt).y, (w.realPoints pt).x⟩ ∧
      w1.realPoints pt = ⟨(w.routePoints p).m_lon, (w.routePoints p).m_lat⟩ ∧
      w1.selectItems aux =
        ⟨(w.realPoints pt).y, (w.realPoints pt).x, (w.selectItems aux).m_pData1⟩ := by
  refine ⟨_, by simp only [doUndoMoveWaypoint, ha, hb, hs]; rfl, ?_, ?_, ?_, ?_⟩
  · unfold updateRoutesContaining; split <;> rfl
  · unfold updateRoutesContaining; split <;> simp [upd]
  · unfold updateRoutesContaining; split <;> simp [upd]
  · unfold updateRoutesContaining; split <;> simp [upd]

/-- `Undo()` on a move record: the swap, and the cursor one further. -/
theorem UndoLastAction_move (u : Undo) (w : World) (c p pt aux : Ptr)
    (hlt : u.stackpointer < u.undoStack.length)
    (hc : u.undoStack.get? u.stackpointer = some c)
    (ht : (w.actions c).type = .Undo_MoveWaypoint)
    (ha : (w.actions c).after.head? = some p)
    (hb : (w.actions c).before.head? = some pt)
    (hs : (w.actions c).selectable.head? = some aux) :
    ∃ w1, u.UndoLastAction w = some (true, { u with stackpointer := u.stackpointer + 1 }, w1) ∧
      w1.actions = w.actions ∧
      w1.routePoints p = ⟨(w.realPoints pt).y, (w.realPoints pt).x⟩ ∧
      w1.realPoints pt = ⟨(w.routePoints p).m_lon, (w.routePoints p).m_lat⟩ ∧
      w1.selectItems aux =
        ⟨(w.realPoints pt).y, (w.realPoints pt).x, (w.selectItems aux).m_pData1⟩ := by
  obtain ⟨w1, hw1, hrest⟩ := doUndoMoveWaypoint_swap c p pt aux w ha hb hs
  refine ⟨w1, ?_, hrest⟩
  rw [UndoLastAction_eq u w c hlt hc]
  simp only [dispatchUndo, ht, hw1, Option.map_some']

/-- `Redo()` on a move record: the same swap, and the cursor one back. -/
theorem RedoNextAction_move (u : Undo) (w : World) (c p pt aux : Ptr)
    (hpos : 0 < u.stackpointer)
    (hc : u.undoStack.get? (u.stackpointer - 1) = some c)
    (ht : (w.actions c).type = .Undo_MoveWaypoint)
    (ha : (w.actions c).after.head? = some p)
    (hb : (w.actions c).before.head? = some pt)
    (hs : (w.actions c).selectable.head? = some aux) :
    ∃ w1, u.RedoNextAction w = some (true, { u with stackpointer := u.stackpointer - 1 }, w1) ∧
      w1.actions = w.actions ∧
      w1.routePoints p = ⟨(w.realPoints pt).y, (w.realPoints pt).x⟩ ∧
      w1.realPoints pt = ⟨(w.routePoints p).m_lon, (w.routePoints p).m_lat⟩ ∧
      w1.selectItems aux =
        ⟨(w.realPoints pt).y, (w.realPoints pt).x, (w.selectItems aux).m_pData1⟩ := by
  obtain ⟨w1, hw1, hrest⟩ := doUndoMoveWaypoint_swap c p pt aux w ha hb hs
  refine ⟨w1, ?_, hrest⟩
  rw [RedoNextAction_eq u w c hpos hc]
  simp only [dispatchRedo, ht, hw1, Option.map_some']

/-- The history after the `push_front` and the conditional `pop_back` of
`AfterUndoableAction` still starts with the pushed record when the depth is
at least 1. -/
theorem pushed_head (c : Ptr) (l : List Ptr) (d : Nat) (hd : 1 ≤ d) :
    ∃ t, (if (c :: l).length > d then (c :: l).dropLast else c :: l) = c :: t := by
  split
  · rename_i h
    cases l with
    | nil => simp only [List.length_cons, List.length_nil] at h; omega
    | cons x xs => exact ⟨(x :: xs).dropLast, rfl⟩
  · exact ⟨l, rfl⟩

/-- What `AfterUndoableAction` does while a transaction is open. -/
theorem AfterUndoableAction_open (after : Ptr) (u : Undo) (w : World)
    (h : u.isInsideUndoableAction = true) :
    u.AfterUndoableAction after w =
      some (true,
        { u with
          undoStack :=
            if (u.candidate :: u.undoStack).length > u.depthSetting
            then (u.candidate :: u.undoStack).dropLast else u.candidate :: u.undoStack,
          isInsideUndoableAction := false },
        { w with
          actions := upd w.actions u.candidate
            { w.actions u.candidate with
              after := (w.actions u.candidate).after ++ [after] } }) := by
  unfold Undo.AfterUndoableAction
  simp [h]

/-- A `BeforeUndoableAction` called while idle succeeds whenever
`InvalidateRedo` has a result; the candidate is a fresh record. -/
theorem BeforeUndoableAction_idle (type : UndoType) (before : Ptr)
    (beforeType : UndoBeforePointerType) (selectable : Ptr) (u ua : Undo) (w wa : World)
    (hf : u.isInsideUndoableAction = false) (hinv : u.InvalidateRedo w = some (ua, wa)) :
    ∃ w1, u.BeforeUndoableAction type before beforeType selectable w =
        some (true, { ua with candidate := wa.next, isInsideUndoableAction := true }, w1) ∧
      wa.next < w1.next ∧ w1.released = wa.released ∧ w1.routePoints = wa.routePoints ∧
      (∀ q, q ≠ wa.next → w1.actions q = wa.actions q) := by
  unfold Undo.BeforeUndoableAction
  simp only [hf, Bool.false_eq_true, ↓reduceIte, hinv]
  cases beforeType <;> cases type <;>
    refine ⟨_, rfl, ?_, rfl, rfl, fun q hq => by simp [captureSubject, upd, hq]⟩ <;>
    first
    | exact Nat.lt_succ_self _
    | exact Nat.lt_succ_of_lt (Nat.lt_succ_self _)

theorem InvalidateRedo_zero (u : Undo) (w : World) (h : u.stackpointer = 0) :
    u.InvalidateRedo w = some (u, w) := by
  unfold Undo.InvalidateRedo
  simp [h]

theorem take_append_take {α : Type} (a b : List α) (n : Nat) :
    (a ++ b.take n).take n = (a ++ b).take n := by
  rw [List.take_append_eq_append_take, List.take_append_eq_append_take, List.take_take]
  congr 2
  omega

theorem pushed_eq_take (c : Ptr) (l : List Ptr) (d : Nat) (hl : l.length ≤ d) :
    (if (c :: l).length > d then (c :: l).dropLast else c :: l) = (c :: l).take d := by
  split
  · rename_i h
    rw [List.dropLast_eq_take]
    have : (c :: l).length - 1 = d := by simp only [List.length_cons] at h ⊢; omega
    rw [this]
  · rename_i h
    exact (List.take_of_length_le (by omega)).symm

/-- The run of Begin/Commit pairs from an idle state with cursor 0: every pair
succeeds, the committed records are fresh and pairwise distinct, the history is
the newest-first list of all records cut at the depth, and `AnythingToRedo()`
is false after every `Commit`. -/
theorem commitAll_spec (N : Nat) (acts : List Action) (u : Undo) (w : World)
    (hf : u.isInsideUndoableAction = false) (hs : u.stackpointer = 0)
    (hd : u.depthSetting = N) (hl : u.undoStack.length ≤ N) :
    ∃ trace u1 w1, commitAll acts u w = some (trace, u1, w1) ∧
      trace.length = acts.length ∧
      (∀ x ∈ trace, x.2 = false) ∧
      (trace.map Prod.fst).Pairwise (· < ·) ∧
      (∀ c ∈ trace.map Prod.fst, w.next ≤ c) ∧
      u1.undoStack = ((trace.map Prod.fst).reverse ++ u.undoStack).take N ∧
      u1.stackpointer = 0 ∧ u1.isInsideUndoableAction = false := by
  induction acts generalizing u w with
  | nil =>
    refine ⟨[], u, w, rfl, rfl, by simp, by simp, by simp, ?_, hs, hf⟩
    simp [List.take_of_length_le hl]
  | cons a rest ih =>
    obtain ⟨wb, hbegin, hnext, _⟩ :=
      BeforeUndoableAction_idle a.type a.before a.beforeType a.selectable u u w w hf
        (InvalidateRedo_zero u w hs)
    have hcommit := AfterUndoableAction_open a.after
      { u with candidate := w.next, isInsideUndoableAction := true } wb rfl
    simp only at hcommit
    rw [pushed_eq_take w.next u.undoStack u.depthSetting (by omega)] at hcommit
    obtain ⟨w2, hcommit, hw2⟩ : ∃ w2,
        Undo.AfterUndoableAction a.after
          { u with candidate := w.next, isInsideUndoableAction := true } wb =
          some (true,
            { u with candidate := w.next, isInsideUndoableAction := false,
                     undoStack := List.take u.depthSetting (w.next :: u.undoStack) }, w2) ∧
        w2.next = wb.next := ⟨_, hcommit, rfl⟩
    obtain ⟨trace, u1, w1, hrun, hlen, hredo, hpair, hfresh, hstack, hsp, hfl⟩ :=
      ih { u with candidate := w.next, isInsideUndoableAction := false,
                  undoStack := List.take u.depthSetting (w.next :: u.undoStack) } w2
        rfl hs hd (by simp only [List.length_take]; omega)
    rw [hw2] at hfresh
    refine ⟨(w.next, false) :: trace, u1, w1, ?_, ?_, ?_, ?_, ?_, ?_, hsp, hfl⟩
    · simp only [commitAll, hbegin, hcommit, hrun, Undo.AnythingToRedo]
      simp [hs]
    · simp [hlen]
    · intro x hx
      rcases List.mem_cons.mp hx with rfl | hx
      · rfl
      · exact hredo x hx
    · simp only [List.map_cons, List.pairwise_cons]
      exact ⟨fun c hc => Nat.lt_of_lt_of_le hnext (hfresh c hc), hpair⟩
    · intro c hc
      simp only [List.map_cons, List.mem_cons] at hc
      rcases hc with rfl | hc
      · exact Nat.le_refl _
      · exact Nat.le_of_lt (Nat.lt_of_lt_of_le hnext (hfresh c hc))
    · rw [hstack]
      simp only [List.map_cons, List.reverse_cons, List.append_assoc, List.singleton_append]
      rw [hd]
      exact take_append_take _ _ _

theorem InvalidateRedo_le (u u1 : Undo) (w w1 : World)
    (h : u.InvalidateRedo w = some (u1, w1)) : u.stackpointer ≤ u.undoStack.length := by
  unfold Undo.InvalidateRedo at h
  split at h
  · rename_i h0; rw [h0]; exact Nat.zero_le _
  · split at h
    · rename_i hle; exact hle
    · exact absurd h (by simp)

/-- What a successful `BeforeUndoableAction` does to the controller. -/
theorem BeforeUndoableAction_success (type : UndoType) (before : Ptr)
    (beforeType : UndoBeforePointerType) (selectable : Ptr) (u u1 : Undo) (w w1 : World)
    (h : u.BeforeUndoableAction type before beforeType selectable w = some (true, u1, w1)) :
    u.isInsideUndoableAction = false ∧ u.stackpointer ≤ u.undoStack.length ∧
    u1 = { u with undoStack := u.undoStack.drop u.stackpointer, stackpointer := 0,
                  candidate := w.next, isInsideUndoableAction := true } ∧
    w.next < w1.next := by
  have hf : u.isInsideUndoableAction = false := by
    rcases BeforeUndoableAction_undo _ _ _ _ _ _ _ _ _ h with ⟨_, hr, _⟩ | ⟨hf, _, _⟩
    · exact absurd hr (by simp)
    · exact hf
  cases hinv : u.InvalidateRedo w with
  | none =>
    unfold Undo.BeforeUndoableAction at h
    simp only [hf, Bool.false_eq_true, ↓reduceIte, hinv] at h
    exact absurd h (by simp)
  | some x =>
    obtain ⟨ua, wa⟩ := x
    obtain ⟨wb, hb, hnext, _⟩ :=
      BeforeUndoableAction_idle type before beforeType selectable u ua w wa hf hinv
    rw [hb] at h
    simp only [Option.some.injEq, Prod.mk.injEq, true_and] at h
    obtain ⟨_, _, _, hn, _⟩ := InvalidateRedo_sameDomain _ _ _ _ hinv
    refine ⟨hf, InvalidateRedo_le _ _ _ _ hinv, ?_, ?_⟩
    · rw [← h.1, InvalidateRedo_undo _ _ _ _ hinv, hn]
    · rw [← h.2, ← hn]; exact hnext

/-- What a failing `BeforeUndoableAction` does: only the `delete candidate`. -/
theorem BeforeUndoableAction_failure (type : UndoType) (before : Ptr)
    (beforeType : UndoBeforePointerType) (selectable : Ptr) (u u1 : Undo) (w w1 : World)
    (h : u.BeforeUndoableAction type before beforeType selectable w = some (false, u1, w1)) :
    u.isInsideUndoableAction = true ∧ u1 = u ∧ deleteUndoAction u.candidate w = some w1 := by
  rcases BeforeUndoableAction_undo _ _ _ _ _ _ _ _ _ h with ⟨hf, _, hu⟩ | ⟨_, hr, _⟩
  · refine ⟨hf, hu, ?_⟩
    unfold Undo.BeforeUndoableAction at h
    simp only [hf, ↓reduceIte] at h
    split at h
    · exact absurd h (by simp)
    · rename_i wa hwa
      simp only [Option.some.injEq, Prod.mk.injEq, true_and] at h
      rw [hwa, h.2]
  · exact absurd hr (by simp)

theorem dispatchUndo_next (action : Ptr) (w w1 : World)
    (h : dispatchUndo action w = some w1) : w.next ≤ w1.next := by
  unfold dispatchUndo at h
  split at h
  · unfold doRedoDeleteWaypoint at h
    split at h
    · simp only [Option.some.injEq] at h
      subst h
      unfold UpdateWptListCtrl wayPointListDeleteObject DeleteSelectablePoint DeleteWayPoint
      split <;> split <;> exact Nat.le_refl _
    · exact absurd h (by simp)
  · unfold doUndoMoveWaypoint at h
    split at h
    · simp only [Option.some.injEq] at h
      subst h
      unfold updateRoutesContaining
      split <;> exact Nat.le_refl _
    · exact absurd h (by simp)
  · unfold doUndoDeleteWaypoint at h
    split at h
    · simp only [Option.some.injEq] at h
      subst h
      unfold UpdateWptListCtrl wayPointListAppend AddNewWayPoint AddSelectableRoutePoint
      split <;> split <;> exact Nat.le_succ _
    · exact absurd h (by simp)

theorem dispatchRedo_next (action : Ptr) (w w1 : World)
    (h : dispatchRedo action w = some w1) : w.next ≤ w1.next := by
  unfold dispatchRedo at h
  split at h
  · unfold doUndoDeleteWaypoint at h
    split at h
    · simp only [Option.some.injEq] at h
      subst h
      unfold UpdateWptListCtrl wayPointListAppend AddNewWayPoint AddSelectableRoutePoint
      split <;> split <;> exact Nat.le_succ _
    · exact absurd h (by simp)
  · unfold doUndoMoveWaypoint at h
    split at h
    · simp only [Option.some.injEq] at h
      subst h
      unfold updateRoutesContaining
      split <;> exact Nat.le_refl _
    · exact absurd h (by simp)
  · unfold doRedoDeleteWaypoint at h
    split at h
    · simp only [Option.some.injEq] at h
      subst h
      unfold UpdateWptListCtrl wayPointListDeleteObject DeleteSelectablePoint DeleteWayPoint
      split <;> split <;> exact Nat.le_refl _
    · exact absurd h (by simp)

theorem UndoLastAction_next (u u1 : Undo) (w w1 : World) (r : Bool)
    (h : u.UndoLastAction w = some (r, u1, w1)) : w.next ≤ w1.next := by
  rcases Nat.lt_or_ge u.stackpointer u.undoStack.length with hlt | hge
  · rw [UndoLastAction_eq u w _ hlt (List.get?_eq_get hlt)] at h
    cases he : dispatchUndo (u.undoStack.get ⟨_, hlt⟩) w with
    | none => rw [he] at h; exact absurd h (by simp)
    | some w2 =>
      rw [he] at h
      simp only [Option.map_some', Option.some.injEq, Prod.mk.injEq] at h
      rw [← h.2.2]
      exact dispatchUndo_next _ _ _ he
  · rw [UndoLastAction_nothing u w hge] at h
    simp only [Option.some.injEq, Prod.mk.injEq] at h
    exact Nat.le_of_eq (congrArg World.next h.2.2)

theorem RedoNextAction_next (u u1 : Undo) (w w1 : World) (r : Bool)
    (h : u.RedoNextAction w = some (r, u1, w1)) : w.next ≤ w1.next := by
  rcases Nat.eq_zero_or_pos u.stackpointer with h0 | hpos
  · rw [RedoNextAction_nothing u w h0] at h
    simp only [Option.some.injEq, Prod.mk.injEq] at h
    exact Nat.le_of_eq (congrArg World.next h.2.2)
  · cases ha : u.undoStack.get? (u.stackpointer - 1) with
    | none =>
      unfold Undo.RedoNextAction Undo.AnythingToRedo Undo.GetNextRedoableAction at h
      simp only [gt_iff_lt, hpos, decide_True, Bool.not_true, Bool.false_eq_true, ↓reduceIte,
        ha, Nat.pos_iff_ne_zero.mp hpos] at h
      exact absurd h (by simp)
    | some action =>
      rw [RedoNextAction_eq u w action hpos ha] at h
      cases he : dispatchRedo action w with
      | none => rw [he] at h; exact absurd h (by simp)
      | some w2 =>
        rw [he] at h
        simp only [Option.map_some', Option.some.injEq, Prod.mk.injEq] at h
        rw [← h.2.2]
        exact dispatchRedo_next _ _ _ he

theorem AfterUndoableAction_next (after : Ptr) (u u1 : Undo) (w w1 : World) (r : Bool)
    (h : u.AfterUndoableAction after w = some (r, u1, w1)) : w1.next = w.next := by
  unfold Undo.AfterUndoableAction at h
  split at h <;>
    (simp only [Option.some.injEq, Prod.mk.injEq] at h; rw [← h.2.2])

theorem mem_pushed (c q : Ptr) (l : List Ptr) (d : Nat)
    (h : q ∈ (if (c :: l).length > d then (c :: l).dropLast else c :: l)) : q = c ∨ q ∈ l := by
  split at h
  · exact List.mem_cons.mp (List.mem_of_mem_dropLast h)
  · exact List.mem_cons.mp h

theorem nodup_pushed (c : Ptr) (l : List Ptr) (d : Nat) (hn : (c :: l).Nodup) :
    (if (c :: l).length > d then (c :: l).dropLast else c :: l).Nodup := by
  split
  · exact hn.sublist (List.dropLast_sublist _)
  · exact hn

/-- Every call keeps `histInv`. -/
theorem step_histInv (c : Call) (u u1 : Undo) (w w1 : World) (r : Bool)
    (h : step c u w = some (r, u1, w1)) (hi : histInv u w) : histInv u1 w1 := by
  obtain ⟨hn, hall, hcand⟩ := hi
  cases c with
  | Begin type before beforeType selectable =>
    cases r with
    | false =>
      obtain ⟨hf, hu, hdel⟩ := BeforeUndoableAction_failure _ _ _ _ _ _ _ _ h
      obtain ⟨_, _, _, hnext, _⟩ := deleteUndoAction_sameDomain _ _ _ hdel
      subst hu
      exact ⟨hn, fun q hq => by rw [hnext]; exact hall q hq,
        fun hf2 => by rw [hnext]; exact hcand hf2⟩
    | true =>
      obtain ⟨hf, _, hu, hnext⟩ := BeforeUndoableAction_success _ _ _ _ _ _ _ _ h
      subst hu
      refine ⟨hn.sublist (List.drop_sublist _ _),
        fun q hq => Nat.lt_trans (hall q (List.mem_of_mem_drop hq)) hnext,
        fun _ => ⟨hnext, fun hin => ?_⟩⟩
      exact Nat.lt_irrefl _ (hall _ (List.mem_of_mem_drop hin))
  | Commit after =>
    have hnext := AfterUndoableAction_next _ _ _ _ _ _ h
    rcases AfterUndoableAction_undo _ _ _ _ _ _ h with ⟨_, _, hu, hw⟩ | ⟨hf, _, hu⟩
    · subst hu hw; exact ⟨hn, hall, hcand⟩
    · obtain ⟨hc1, hc2⟩ := hcand hf
      subst hu
      refine ⟨nodup_pushed _ _ _ (List.nodup_cons.mpr ⟨hc2, hn⟩), fun q hq => ?_,
        fun hf2 => absurd hf2 (by simp)⟩
      rw [hnext]
      rcases mem_pushed _ _ _ _ hq with rfl | hq
      · exact hc1
      · exact hall q hq
  | UndoCall =>
    have hnext := UndoLastAction_next _ _ _ _ _ h
    rcases UndoLastAction_undo _ _ _ _ _ h with ⟨_, _, hu, _⟩ | ⟨_, _, hu⟩ <;>
    · subst hu
      exact ⟨hn, fun q hq => Nat.lt_of_lt_of_le (hall q hq) hnext,
        fun hf => ⟨Nat.lt_of_lt_of_le (hcand hf).1 hnext, (hcand hf).2⟩⟩
  | RedoCall =>
    have hnext := RedoNextAction_next _ _ _ _ _ h
    rcases RedoNextAction_undo _ _ _ _ _ h with ⟨_, _, hu, _⟩ | ⟨_, _, hu⟩ <;>
    · subst hu
      exact ⟨hn, fun q hq => Nat.lt_of_lt_of_le (hall q hq) hnext,
        fun hf => ⟨Nat.lt_of_lt_of_le (hcand hf).1 hnext, (hcand hf).2⟩⟩
  | ClearAll =>
    simp only [step, Option.some.injEq, Prod.mk.injEq] at h
    obtain ⟨_, hu, hw⟩ := h
    subst hu hw
    exact ⟨List.nodup_nil, fun q hq => absurd hq (List.not_mem_nil q),
      fun hf => ⟨(hcand hf).1, List.not_mem_nil _⟩⟩

/-- Every call keeps a record that is gone out of the history. -/
theorem step_gone (p : Ptr) (c : Call) (u u1 : Undo) (w w1 : World) (r : Bool)
    (h : step c u w = some (r, u1, w1)) (hg : gone p u w) : gone p u1 w1 := by
  obtain ⟨hp, hnot, hcand⟩ := hg
  cases c with
  | Begin type before beforeType selectable =>
    cases r with
    | false =>
      obtain ⟨hf, hu, hdel⟩ := BeforeUndoableAction_failure _ _ _ _ _ _ _ _ h
      obtain ⟨_, _, _, hnext, _⟩ := deleteUndoAction_sameDomain _ _ _ hdel
      subst hu
      exact ⟨by rw [hnext]; exact hp, hnot, hcand⟩
    | true =>
      obtain ⟨hf, _, hu, hnext⟩ := BeforeUndoableAction_success _ _ _ _ _ _ _ _ h
      subst hu
      exact ⟨Nat.lt_trans hp hnext, fun hin => hnot (List.mem_of_mem_drop hin),
        fun _ heq => Nat.lt_irrefl _ (heq ▸ hp)⟩
  | Commit after =>
    have hnext := AfterUndoableAction_next _ _ _ _ _ _ h
    rcases AfterUndoableAction_undo _ _ _ _ _ _ h with ⟨_, _, hu, hw⟩ | ⟨hf, _, hu⟩
    · subst hu hw; exact ⟨hp, hnot, hcand⟩
    · subst hu
      refine ⟨by rw [hnext]; exact hp, fun hin => ?_, fun hf2 => absurd hf2 (by simp)⟩
      rcases mem_pushed _ _ _ _ hin with heq | hin
      · exact hcand hf heq.symm
      · exact hnot hin
  | UndoCall =>
    have hnext := UndoLastAction_next _ _ _ _ _ h
    rcases UndoLastAction_undo _ _ _ _ _ h with ⟨_, _, hu, _⟩ | ⟨_, _, hu⟩ <;>
    · subst hu
      exact ⟨Nat.lt_of_lt_of_le hp hnext, hnot, hcand⟩
  | RedoCall =>
    have hnext := RedoNextAction_next _ _ _ _ _ h
    rcases RedoNextAction_undo _ _ _ _ _ h with ⟨_, _, hu, _⟩ | ⟨_, _, hu⟩ <;>
    · subst hu
      exact ⟨Nat.lt_of_lt_of_le hp hnext, hnot, hcand⟩
  | ClearAll =>
    simp only [step, Option.some.injEq, Prod.mk.injEq] at h
    obtain ⟨_, hu, hw⟩ := h
    subst hu hw
    exact ⟨hp, List.not_mem_nil _, hcand⟩

theorem run_histInv (calls : List Call) (u u1 : Undo) (w w1 : World)
    (h : run calls u w = some (u1, w1)) (hi : histInv u w) : histInv u1 w1 := by
  induction calls generalizing u w with
  | nil =>
    simp only [run, Option.some.injEq, Prod.mk.injEq] at h
    obtain ⟨hu, hw⟩ := h
    subst hu hw
    exact hi
  | cons c cs ih =>
    simp only [run] at h
    split at h
    · exact absurd h (by simp)
    · rename_i r u2 w2 hs
      exact ih u2 w2 h (step_histInv c u u2 w w2 r hs hi)

theorem run_gone (p : Ptr) (calls : List Call) (u u1 : Undo) (w w1 : World)
    (h : run calls u w = some (u1, w1)) (hg : gone p u w) : gone p u1 w1 := by
  induction calls generalizing u w with
  | nil =>
    simp only [run, Option.some.injEq, Prod.mk.injEq] at h
    obtain ⟨hu, hw⟩ := h
    subst hu hw
    exact hg
  | cons c cs ih =>
    simp only [run] at h
    split at h
    · exact absurd h (by simp)
    · rename_i r u2 w2 hs
      exact ih u2 w2 h (step_gone p c u u2 w w2 r hs hg)

theorem histInv_new (w : World) : histInv Undo.new w :=
  ⟨List.nodup_nil, fun q hq => absurd hq (List.not_mem_nil q), fun hf => absurd hf (by simp [Undo.new])⟩

/-- The candidate record a successful `BeforeUndoableAction` builds: one
`before` entry, one mode tag, one `selectable` entry, no `after` entry.  The
`before` entry is the supplied pointer itself, except for a move that needs a
copy, where it is the fresh position snapshot. -/
theorem BeforeUndoableAction_record (type : UndoType) (before : Ptr)
    (beforeType : UndoBeforePointerType) (selectable : Ptr) (u u1 : Undo) (w w1 : World)
    (h : u.BeforeUndoableAction type before beforeType selectable w = some (true, u1, w1)) :
    ∃ subject, w1.actions w.next = ⟨type, [subject], [beforeType], [], [selectable]⟩ ∧
      (type = .Undo_MoveWaypoint ∧ beforeType = .Undo_NeedsCopy →
        subject = w.next + 1 ∧ w1.next = w.next + 2) ∧
      (¬ (type = .Undo_MoveWaypoint ∧ beforeType = .Undo_NeedsCopy) →
        subject = before ∧ w1.next = w.next + 1 ∧ w1.realPoints = w.realPoints) := by
  unfold Undo.BeforeUndoableAction at h
  split at h
  · split at h
    · exact absurd h (by simp)
    · simp at h
  · split at h
    · exact absurd h (by simp)
    · rename_i ua wa hinv
      obtain ⟨hreal, _, _, hnext, _⟩ := InvalidateRedo_sameDomain _ _ _ _ hinv
      simp only [Option.some.injEq, Prod.mk.injEq, true_and] at h
      obtain ⟨_, h2⟩ := h
      subst h2
      rw [← hnext, ← hreal]
      refine ⟨if type = .Undo_MoveWaypoint ∧ beforeType = .Undo_NeedsCopy
        then wa.next + 1 else before, ?_, ?_, ?_⟩ <;>
      cases beforeType <;> cases type <;> simp [captureSubject, upd]

/-- The detach effect of `doRedoDeleteWaypoint`, field by field. -/
theorem doRedoDeleteWaypoint_detach (action point : Ptr) (w : World)
    (hb : (w.actions action).before.head? = some point) :
    ∃ w1, doRedoDeleteWaypoint action w = some w1 ∧ w1.actions = w.actions ∧
      w1.routePoints = w.routePoints ∧ w1.selectItems = w.selectItems ∧
      w1.next = w.next ∧
      w1.selectList =
        w.selectList.filter (fun q => decide ((w.selectItems q).m_pData1 ≠ point)) ∧
      w1.configWayPoints = w.configWayPoints.filter (fun q => decide (q ≠ point)) ∧
      w1.wayPointList =
        w.wayPointList.map (fun l => l.filter (fun q => decide (q ≠ point))) := by
  refine ⟨_, by simp only [doRedoDeleteWaypoint, hb]; rfl, ?_⟩
  unfold UpdateWptListCtrl wayPointListDeleteObject DeleteSelectablePoint DeleteWayPoint
  cases hl : w.wayPointList <;> cases hd : w.dialogShown <;> simp [hl, hd]

/-- The attach effect of `doUndoDeleteWaypoint`, field by field. -/
theorem doUndoDeleteWaypoint_attach (action point : Ptr) (w : World)
    (hb : (w.actions action).before.head? = some point) :
    ∃ w1, doUndoDeleteWaypoint action w = some w1 ∧ w1.actions = w.actions ∧
      w1.routePoints = w.routePoints ∧
      w1.selectItems w.next =
        ⟨(w.routePoints point).m_lat, (w.routePoints point).m_lon, point⟩ ∧
      w1.selectList = w.selectList ++ [w.next] ∧
      w1.configWayPoints = w.configWayPoints ++ [point] ∧
      w1.wayPointList = w.wayPointList.map (fun l => l ++ [point]) := by
  refine ⟨_, by simp only [doUndoDeleteWaypoint, hb]; rfl, ?_⟩
  unfold UpdateWptListCtrl wayPointListAppend AddNewWayPoint AddSelectableRoutePoint
  cases hl : w.wayPointList <;> cases hd : w.dialogShown <;> simp [hl, hd, upd]

theorem releaseEntries_single (type : UndoType) (t : UndoBeforePointerType) (b : Ptr)
    (log : List Released) :
    releaseEntries type [b] [t] log = some (log ++ ownedRelease type t b) := by
  cases t <;> cases type <;> simp only [releaseEntries, ownedRelease] <;>
    first
    | (split <;> simp)
    | simp

/-- The expression `delete r` on a record with one `before` entry and one mode tag. -/
theorem deleteUndoAction_single (r b : Ptr) (t : UndoBeforePointerType) (w : World)
    (hr : r ≠ NULL) (hb : (w.actions r).before = [b]) (ht : (w.actions r).beforeType = [t]) :
    deleteUndoAction r w =
      some { w with
        actions := upd w.actions r { w.actions r with before := [] }
        released := w.released ++ ownedRelease (w.actions r).type t b ++ [Released.action r] } := by
  unfold deleteUndoAction
  rw [if_neg hr, hb, ht, releaseEntries_single]
  simp

theorem invalidateLoop_cons_delete (p : Ptr) (ps : List Ptr) (w wc wd : World)
    (hty : (w.actions p).type = .Undo_DeleteWaypoint)
    (hc : clearBefore0 p w = some wc) (hd : deleteUndoAction p wc = some wd) :
    invalidateLoop (p :: ps) w = invalidateLoop ps wd := by
  simp only [invalidateLoop, hty, hc, hd]

theorem invalidateLoop_cons_other (p : Ptr) (ps : List Ptr) (w wd : World)
    (hty : (w.actions p).type ≠ .Undo_DeleteWaypoint)
    (hd : deleteUndoAction p w = some wd) :
    invalidateLoop (p :: ps) w = invalidateLoop ps wd := by
  cases h : (w.actions p).type with
  | Undo_DeleteWaypoint => exact absurd h hty
  | Undo_CreateWaypoint => simp only [invalidateLoop, h, hd]
  | Undo_MoveWaypoint => simp only [invalidateLoop, h, hd]

/-- The loop of `InvalidateRedo` on a single record with one `before` entry and
one mode tag: only the position snapshot of a move is released with the record. -/
theorem invalidateLoop_single (r b : Ptr) (t : UndoBeforePointerType) (w : World)
    (hr : r ≠ NULL) (hb : (w.actions r).before = [b]) (ht : (w.actions r).beforeType = [t])
    (hbn : b ≠ NULL) :
    ∃ w1, invalidateLoop [r] w = some w1 ∧
      w1.released = w.released ++
        (if (w.actions r).type = .Undo_MoveWaypoint ∧ t = .Undo_NeedsCopy
         then [Released.realPoint b] else []) ++ [Released.action r] := by
  cases hty : (w.actions r).type with
  | Undo_CreateWaypoint =>
    refine ⟨_, invalidateLoop_cons_other r [] w _ (by rw [hty]; decide)
      (deleteUndoAction_single r b t w hr hb ht), ?_⟩
    cases t <;> simp [ownedRelease, hty]
  | Undo_MoveWaypoint =>
    refine ⟨_, invalidateLoop_cons_other r [] w _ (by rw [hty]; decide)
      (deleteUndoAction_single r b t w hr hb ht), ?_⟩
    cases t <;> simp [ownedRelease, hty, hbn]
  | Undo_DeleteWaypoint =>
    have hc : clearBefore0 r w =
        some { w with actions := upd w.actions r { w.actions r with before := [NULL] } } := by
      simp only [clearBefore0, hb]
    have hd := deleteUndoAction_single r NULL t
      { w with actions := upd w.actions r { w.actions r with before := [NULL] } } hr
      (by simp [upd]) (by simp [upd, ht])
    refine ⟨_, invalidateLoop_cons_delete r [] w _ _ hty hc hd, ?_⟩
    cases t <;> simp [ownedRelease, upd, hty]

theorem deleteUndoAction_actions_other (p : Ptr) (w w1 : World)
    (h : deleteUndoAction p w = some w1) (q : Ptr) (hq : q ≠ p) :
    w1.actions q = w.actions q := by
  unfold deleteUndoAction at h
  split at h
  · simp only [Option.some.injEq] at h
    subst h; rfl
  · split at h
    · exact absurd h (by simp)
    · split at h
      · exact absurd h (by simp)
      · simp only [Option.some.injEq] at h
        subst h
        exact upd_other _ _ _ _ hq

theorem clearBefore0_actions_other (p : Ptr) (w w1 : World)
    (h : clearBefore0 p w = some w1) (q : Ptr) (hq : q ≠ p) :
    w1.actions q = w.actions q := by
  unfold clearBefore0 at h
  split at h
  · exact absurd h (by simp)
  · simp only [Option.some.injEq] at h
    subst h
    exact upd_other _ _ _ _ hq

theorem invalidateLoop_actions_other (ps : List Ptr) (w w1 : World)
    (h : invalidateLoop ps w = some w1) (q : Ptr) (hq : q ∉ ps) :
    w1.actions q = w.actions q := by
  induction ps generalizing w with
  | nil =>
    simp only [invalidateLoop, Option.some.injEq] at h
    subst h; rfl
  | cons p ps ih =>
    have hqp : q ≠ p := fun e => hq (e ▸ List.mem_cons_self _ _)
    have hqps : q ∉ ps := fun e => hq (List.mem_cons_of_mem _ e)
    simp only [invalidateLoop] at h
    split at h
    · exact absurd h (by simp)
    · rename_i wa hwa
      have hsa : wa.actions q = w.actions q := by
        split at hwa
        · exact clearBefore0_actions_other _ _ _ hwa q hqp
        · simp only [Option.some.injEq] at hwa; subst hwa; rfl
        · simp only [Option.some.injEq] at hwa; subst hwa; rfl
      split at h
      · exact absurd h (by simp)
      · rename_i wb hwb
        rw [ih wb h hqps, deleteUndoAction_actions_other _ _ _ hwb q hqp, hsa]

theorem InvalidateRedo_actions_other (u u1 : Undo) (w w1 : World)
    (h : u.InvalidateRedo w = some (u1, w1)) (q : Ptr)
    (hq : q ∉ u.undoStack.take u.stackpointer) : w1.actions q = w.actions q := by
  unfold Undo.InvalidateRedo at h
  split at h
  · simp only [Option.some.injEq, Prod.mk.injEq] at h
    rw [← h.2]
  · split at h
    · split at h
      · exact absurd h (by simp)
      · rename_i wa hwa
        simp only [Option.some.injEq, Prod.mk.injEq] at h
        rw [← h.2]
        exact invalidateLoop_actions_other _ _ _ hwa q hq
    · exact absurd h (by simp)

theorem releaseEntries_defined (type : UndoType) (bs : List Ptr)
    (ts : List UndoBeforePointerType) (log : List Released) (h : bs.length ≤ ts.length) :
    ∃ l, releaseEntries type bs ts log = some l := by
  induction bs generalizing ts log with
  | nil => exact ⟨log, by simp [releaseEntries]⟩
  | cons b bs ih =>
    cases ts with
    | nil => simp at h
    | cons t ts =>
      have hl : bs.length ≤ ts.length := by simpa using h
      cases t <;> cases type <;> simp only [releaseEntries] <;> exact ih _ _ hl

theorem deleteUndoAction_defined (p : Ptr) (w : World)
    (h : (w.actions p).before.length = (w.actions p).beforeType.length) :
    ∃ w1, deleteUndoAction p w = some w1 := by
  unfold deleteUndoAction
  split
  · exact ⟨w, rfl⟩
  · obtain ⟨l, hl⟩ := releaseEntries_defined (w.actions p).type (w.actions p).before
      (w.actions p).beforeType w.released (Nat.le_of_eq h)
    simp [h, hl]

theorem clearBefore0_defined (p : Ptr) (w : World) (h : (w.actions p).before.length = 1) :
    ∃ w1, clearBefore0 p w = some w1 ∧ (w1.actions p).before.length = 1 ∧
      (w1.actions p).beforeType = (w.actions p).beforeType := by
  unfold clearBefore0
  cases hb : (w.actions p).before with
  | nil => rw [hb] at h; simp at h
  | cons b bs =>
    rw [hb] at h
    refine ⟨_, rfl, ?_, ?_⟩
    · simpa [upd] using h
    · simp [upd]

/-- The loop of `InvalidateRedo` has a result on pairwise distinct records
that each have one `before` entry and one mode tag. -/
theorem invalidateLoop_defined (ps : List Ptr) (w : World) (hn : ps.Nodup)
    (hfull : ∀ p ∈ ps, (w.actions p).before.length = 1 ∧ (w.actions p).beforeType.length = 1) :
    ∃ w1, invalidateLoop ps w = some w1 := by
  induction ps generalizing w with
  | nil => exact ⟨w, rfl⟩
  | cons p ps ih =>
    obtain ⟨hp, hnps⟩ := List.nodup_cons.mp hn
    obtain ⟨hb, ht⟩ := hfull p (List.mem_cons_self _ _)
    by_cases hty : (w.actions p).type = .Undo_DeleteWaypoint
    · obtain ⟨wc, hc, hcb, hct⟩ := clearBefore0_defined p w hb
      obtain ⟨wd, hd⟩ := deleteUndoAction_defined p wc (by rw [hcb, hct, ht])
      rw [invalidateLoop_cons_delete p ps w wc wd hty hc hd]
      refine ih wd hnps (fun q hq => ?_)
      have hqp : q ≠ p := fun e => hp (e ▸ hq)
      rw [deleteUndoAction_actions_other _ _ _ hd q hqp,
        clearBefore0_actions_other _ _ _ hc q hqp]
      exact hfull q (List.mem_cons_of_mem _ hq)
    · obtain ⟨wd, hd⟩ := deleteUndoAction_defined p w (by rw [hb, ht])
      rw [invalidateLoop_cons_other p ps w wd hty hd]
      refine ih wd hnps (fun q hq => ?_)
      have hqp : q ≠ p := fun e => hp (e ▸ hq)
      rw [deleteUndoAction_actions_other _ _ _ hd q hqp]
      exact hfull q (List.mem_cons_of_mem _ hq)

theorem step_commit_idle (after : Ptr) (u : Undo) (w : World)
    (h : u.isInsideUndoableAction = false) :
    step (.Commit after) u w = some (false, u, w) := by
  simp [step, Undo.AfterUndoableAction, h]

/-- What a successful `BeforeUndoableAction` leaves of the stored records:
those outside the invalidated part of the history and other than the fresh
candidate are untouched. -/
theorem BeforeUndoableAction_actions_other (type : UndoType) (before : Ptr)
    (beforeType : UndoBeforePointerType) (selectable : Ptr) (u u1 : Undo) (w w1 : World)
    (h : u.BeforeUndoableAction type before beforeType selectable w = some (true, u1, w1))
    (q : Ptr) (hq : q ∉ u.undoStack.take u.stackpointer) (hqn : q ≠ w.next) :
    w1.actions q = w.actions q := by
  obtain ⟨hf, _, _, _⟩ := BeforeUndoableAction_success _ _ _ _ _ _ _ _ h
  cases hinv : u.InvalidateRedo w with
  | none =>
    unfold Undo.BeforeUndoableAction at h
    simp only [hf, Bool.false_eq_true, ↓reduceIte, hinv] at h
    exact absurd h (by simp)
  | some x =>
    obtain ⟨ua, wa⟩ := x
    obtain ⟨wb, hb, _, _, _, hother⟩ :=
      BeforeUndoableAction_idle type before beforeType selectable u ua w wa hf hinv
    rw [hb] at h
    simp only [Option.some.injEq, Prod.mk.injEq, true_and] at h
    obtain ⟨_, _, _, hn, _⟩ := InvalidateRedo_sameDomain _ _ _ _ hinv
    rw [← h.2, hother q (by rw [hn]; exact hqn)]
    exact InvalidateRedo_actions_other _ _ _ _ hinv q hq

theorem UndoLastAction_actions (u u1 : Undo) (w w1 : World) (r : Bool)
    (h : u.UndoLastAction w = some (r, u1, w1)) : w1.actions = w.actions := by
  rcases Nat.lt_or_ge u.stackpointer u.undoStack.length with hlt | hge
  · rw [UndoLastAction_eq u w _ hlt (List.get?_eq_get hlt)] at h
    cases he : dispatchUndo (u.undoStack.get ⟨_, hlt⟩) w with
    | none => rw [he] at h; exact absurd h (by simp)
    | some w2 =>
      rw [he] at h
      simp only [Option.map_some', Option.some.injEq, Prod.mk.injEq] at h
      rw [← h.2.2]
      exact dispatchUndo_actions _ _ _ he
  · rw [UndoLastAction_nothing u w hge] at h
    simp only [Option.some.injEq, Prod.mk.injEq] at h
    rw [← h.2.2]

theorem RedoNextAction_actions (u u1 : Undo) (w w1 : World) (r : Bool)
    (h : u.RedoNextAction w = some (r, u1, w1)) : w1.actions = w.actions := by
  rcases Nat.eq_zero_or_pos u.stackpointer with h0 | hpos
  · rw [RedoNextAction_nothing u w h0] at h
    simp only [Option.some.injEq, Prod.mk.injEq] at h
    rw [← h.2.2]
  · cases ha : u.undoStack.get? (u.stackpointer - 1) with
    | none =>
      unfold Undo.RedoNextAction Undo.AnythingToRedo Undo.GetNextRedoableAction at h
      simp only [gt_iff_lt, hpos, decide_True, Bool.not_true, Bool.false_eq_true, ↓reduceIte,
        ha, Nat.pos_iff_ne_zero.mp hpos] at h
      exact absurd h (by simp)
    | some action =>
      rw [RedoNextAction_eq u w action hpos ha] at h
      cases he : dispatchRedo action w with
      | none => rw [he] at h; exact absurd h (by simp)
      | some w2 =>
        rw [he] at h
        simp only [Option.map_some', Option.some.injEq, Prod.mk.injEq] at h
        rw [← h.2.2]
        exact dispatchRedo_actions _ _ _ he

theorem length_pushed (c : Ptr) (l : List Ptr) (d : Nat) :
    l.length ≤ (if (c :: l).length > d then (c :: l).dropLast else c :: l).length := by
  split
  · rw [List.length_dropLast, List.length_cons]; omega
  · rw [List.length_cons]; omega

/-- Every call other than a `Begin` inside an open transaction keeps `safeInv`. -/
theorem step_safeInv (c : Call) (u u1 : Undo) (w w1 : World) (r : Bool)
    (h : step c u w = some (r, u1, w1))
    (hidle : beginIsIdle c u = true) (hi : safeInv u w) : safeInv u1 w1 := by
  obtain ⟨hh, hsp, hfull, hopen⟩ := hi
  have hh1 : histInv u1 w1 := step_histInv c u u1 w w1 r h hh
  obtain ⟨hn, hall, hcand⟩ := hh
  refine ⟨hh1, ?_⟩
  cases c with
  | Begin type before beforeType selectable =>
    cases r with
    | false =>
      obtain ⟨hf, _, _⟩ := BeforeUndoableAction_failure _ _ _ _ _ _ _ _ h
      simp only [beginIsIdle, Bool.not_eq_true'] at hidle
      rw [hidle] at hf
      exact absurd hf (by simp)
    | true =>
      obtain ⟨_, _, hu, _⟩ := BeforeUndoableAction_success _ _ _ _ _ _ _ _ h
      obtain ⟨subject, hrec, _, _⟩ := BeforeUndoableAction_record _ _ _ _ _ _ _ _ h
      have hother := BeforeUndoableAction_actions_other _ _ _ _ _ _ _ _ h
      subst hu
      refine ⟨Nat.zero_le _, fun q hq => ?_, fun _ => ?_⟩
      · have hq0 : q ∈ u.undoStack := List.mem_of_mem_drop hq
        have hqt : q ∉ u.undoStack.take u.stackpointer :=
          fun hin => List.disjoint_take_drop hn (Nat.le_refl _) hin hq
        have hqn : q ≠ w.next := fun e => Nat.lt_irrefl _ (e ▸ hall q hq0)
        rw [hother q hqt hqn]
        exact hfull q hq0
      · show openRecord (w1.actions w.next)
        rw [hrec]
        exact ⟨rfl, rfl, rfl, rfl⟩
  | Commit after =>
    cases hf : u.isInsideUndoableAction with
    | false =>
      rw [step_commit_idle after u w hf] at h
      simp only [step, Option.some.injEq, Prod.mk.injEq] at h
      obtain ⟨_, hu, hw⟩ := h
      subst hu hw
      exact ⟨hsp, hfull, hopen⟩
    | true =>
      have ho := AfterUndoableAction_open after u w hf
      simp only [step] at h
      rw [ho] at h
      simp only [Option.some.injEq, Prod.mk.injEq, true_and] at h
      obtain ⟨_, hu, hw⟩ := h
      subst hu hw
      obtain ⟨_, hc2⟩ := hcand hf
      obtain ⟨o1, o2, o3, o4⟩ := hopen hf
      refine ⟨Nat.le_trans hsp (length_pushed _ _ _), fun q hq => ?_,
        fun hf2 => absurd hf2 (by simp)⟩
      rcases mem_pushed _ _ _ _ hq with rfl | hq
      · show fullRecord (upd w.actions _ _ _)
        rw [upd_same]
        exact ⟨o1, o2, by simp [o3], o4⟩
      · show fullRecord (upd w.actions _ _ _)
        rw [upd_other _ _ _ _ (fun e : q = u.candidate => hc2 (e ▸ hq))]
        exact hfull q hq
  | UndoCall =>
    have hact := UndoLastAction_actions _ _ _ _ _ h
    rcases UndoLastAction_undo _ _ _ _ _ h with ⟨_, _, hu, _⟩ | ⟨hlt, _, hu⟩
    · subst hu
      rw [hact]
      exact ⟨hsp, hfull, hopen⟩
    · subst hu
      rw [hact]
      exact ⟨hlt, hfull, hopen⟩
  | RedoCall =>
    have hact := RedoNextAction_actions _ _ _ _ _ h
    rcases RedoNextAction_undo _ _ _ _ _ h with ⟨_, _, hu, _⟩ | ⟨_, _, hu⟩
    · subst hu
      rw [hact]
      exact ⟨hsp, hfull, hopen⟩
    · subst hu
      rw [hact]
      exact ⟨Nat.le_trans (Nat.sub_le _ _) hsp, hfull, hopen⟩
  | ClearAll =>
    simp only [step, Option.some.injEq, Prod.mk.injEq] at h
    obtain ⟨_, hu, hw⟩ := h
    subst hu hw
    exact ⟨Nat.le_refl _, fun q hq => absurd hq (List.not_mem_nil q), hopen⟩

theorem run_safeInv (calls : List Call) (u u1 : Undo) (w w1 : World)
    (h : run calls u w = some (u1, w1)) (hidle : idleBegins calls u w = true)
    (hi : safeInv u w) : safeInv u1 w1 := by
  induction calls generalizing u w with
  | nil =>
    simp only [run, Option.some.injEq, Prod.mk.injEq] at h
    obtain ⟨hu, hw⟩ := h
    subst hu hw
    exact hi
  | cons c cs ih =>
    simp only [run] at h
    simp only [idleBegins, Bool.and_eq_true] at hidle
    obtain ⟨hc, hrest⟩ := hidle
    split at h
    · exact absurd h (by simp)
    · rename_i r u2 w2 hs
      rw [hs] at hrest
      exact ih u2 w2 h hrest (step_safeInv c u u2 w w2 r hs hc hi)

theorem safeInv_new (w : World) : safeInv Undo.new w :=
  ⟨histInv_new w, Nat.le_refl _, fun q hq => absurd hq (List.not_mem_nil q),
    fun hf => absurd hf (by simp [Undo.new])⟩

theorem fullRecord_hasEntries (a : UndoAction) (h : fullRecord a) : hasEntries a = true := by
  obtain ⟨h1, _, h3, h4⟩ := h
  unfold hasEntries
  cases hb : a.before with
  | nil => rw [hb] at h1; simp at h1
  | cons b bs =>
    cases ha : a.after with
    | nil => rw [ha] at h3; simp at h3
    | cons x xs =>
      cases hs : a.selectable with
      | nil => rw [hs] at h4; simp at h4
      | cons y ys => cases a.type <;> simp

/-- The replayer `doRedoDeleteWaypoint` has exactly the detach effect of the spec. -/
theorem doRedoDeleteWaypoint_eq_specDetach (action point : Ptr) (w : World)
    (hb : (w.actions action).before.head? = some point) :
    doRedoDeleteWaypoint action w = some (specDetach point w) := by
  simp only [doRedoDeleteWaypoint, hb, Option.some.injEq]
  unfold UpdateWptListCtrl wayPointListDeleteObject DeleteSelectablePoint DeleteWayPoint
    specDetach
  cases hl : w.wayPointList <;> cases hd : w.dialogShown <;> simp [hl, hd]

/-- The replayer `doUndoDeleteWaypoint` has exactly the attach effect of the spec. -/
theorem doUndoDeleteWaypoint_eq_specAttach (action point : Ptr) (w : World)
    (hb : (w.actions action).before.head? = some point) :
    doUndoDeleteWaypoint action w = some (specAttach point w) := by
  simp only [doUndoDeleteWaypoint, hb, Option.some.injEq]
  unfold UpdateWptListCtrl wayPointListAppend AddNewWayPoint AddSelectableRoutePoint
    specAttach
  cases hl : w.wayPointList <;> cases hd : w.dialogShown <;> simp [hl, hd]

/-- The replayer `doUndoMoveWaypoint` has exactly the swap effect of the spec. -/
theorem doUndoMoveWaypoint_eq_specSwap (action p pt aux : Ptr) (w : World)
    (ha : (w.actions action).after.head? = some p)
    (hb : (w.actions action).before.head? = some pt)
    (hs : (w.actions action).selectable.head? = some aux) :
    doUndoMoveWaypoint action w = some (specSwap p pt aux w) := by
  simp only [doUndoMoveWaypoint, ha, hb, hs, Option.some.injEq]
  unfold updateRoutesContaining specSwap
  cases hr : w.routesContaining p <;> simp [hr, upd]

/-- A record without the entries its replayer reads: no replayer has a result. -/
theorem dispatch_none (action : Ptr) (w : World)
    (h : hasEntries (w.actions action) = false) :
    dispatchUndo action w = none ∧ dispatchRedo action w = none := by
  unfold hasEntries at h
  unfold dispatchUndo dispatchRedo doRedoDeleteWaypoint doUndoDeleteWaypoint doUndoMoveWaypoint
  cases hb : (w.actions action).before <;> cases ha : (w.actions action).after <;>
    cases hs : (w.actions action).selectable <;> cases ht : (w.actions action).type <;>
    simp_all

/-! ## The claims -/

/-- C1, cursor consistency: in every state reached from a freshly constructed
controller (empty history, cursor 0, depth 10) by a finite sequence of Begin,
Commit, Undo, Redo and ClearAll calls, `0 ≤ cursor ≤ length ≤ maxDepth`,
`AnythingToUndo()` equals `length > cursor` and `AnythingToRedo()` equals
`cursor > 0`. -/
theorem C1_cursor_consistency (calls : List Call) (w0 : World) (u : Undo) (w : World)
    (h : run calls Undo.new w0 = some (u, w)) :
    0 ≤ u.stackpointer ∧ u.stackpointer ≤ u.undoStack.length ∧
      u.undoStack.length ≤ u.depthSetting ∧ u.depthSetting = 10 ∧
      u.AnythingToUndo = decide (u.undoStack.length > u.stackpointer) ∧
      u.AnythingToRedo = decide (u.stackpointer > 0) := by
  have hi : cursorInv Undo.new := by simp [cursorInv, Undo.new]
  obtain ⟨⟨h1, h2⟩, h3⟩ := run_cursorInv calls Undo.new u w0 w h hi
  exact ⟨Nat.zero_le _, h1, h2, h3, rfl, rfl⟩

/-- Witness of C1: after a committed and undone move the cursor is 1, the
history has one record, and the invariant holds there. -/
theorem C1_cursor_consistency_witness :
    run moveUndone Undo.new World.blank = some (afterCalls moveUndone) ∧
      (afterCalls moveUndone).1.stackpointer = 1 ∧
      (afterCalls moveUndone).1.undoStack.length = 1 ∧
      (0 ≤ (afterCalls moveUndone).1.stackpointer ∧
        (afterCalls moveUndone).1.stackpointer ≤ (afterCalls moveUndone).1.undoStack.length ∧
        (afterCalls moveUndone).1.undoStack.length ≤ (afterCalls moveUndone).1.depthSetting ∧
        (afterCalls moveUndone).1.depthSetting = 10 ∧
        (afterCalls moveUndone).1.AnythingToUndo =
          decide ((afterCalls moveUndone).1.undoStack.length >
            (afterCalls moveUndone).1.stackpointer) ∧
        (afterCalls moveUndone).1.AnythingToRedo =
          decide ((afterCalls moveUndone).1.stackpointer > 0)) :=
  ⟨rfl, rfl, rfl,
    C1_cursor_consistency moveUndone World.blank (afterCalls moveUndone).1
      (afterCalls moveUndone).2 rfl⟩

/-- C2, contract of `Undo()`: it returns failure exactly when
`length ≤ cursor`, and then nothing changes (controller and world are the same).
Otherwise it acts on the record at index `cursor` and on no other: for a
CreateWaypoint record the world becomes the detached world of `before[0]`, for a
DeleteWaypoint record the attached world of `before[0]`, for a MoveWaypoint
record the world with `after[0]` and `before[0]` swapped and `selectable[0]`
moved along; success is returned, the cursor is increased by exactly 1, and the
history, the transaction flag and the stored records are unchanged.  A record
that lacks an entry its replayer reads gives no result at all. -/
theorem C2_undo_contract (u : Undo) (w : World) :
    (∀ r u1 w1, u.UndoLastAction w = some (r, u1, w1) →
      (r = false ↔ u.undoStack.length ≤ u.stackpointer)) ∧
    (u.undoStack.length ≤ u.stackpointer → u.UndoLastAction w = some (false, u, w)) ∧
    (u.stackpointer < u.undoStack.length →
      ∃ action, u.undoStack.get? u.stackpointer = some action ∧
        (∀ pt, (w.actions action).type = .Undo_CreateWaypoint →
          (w.actions action).before.head? = some pt →
          u.UndoLastAction w =
            some (true, { u with stackpointer := u.stackpointer + 1 }, specDetach pt w)) ∧
        (∀ pt, (w.actions action).type = .Undo_DeleteWaypoint →
          (w.actions action).before.head? = some pt →
          u.UndoLastAction w =
            some (true, { u with stackpointer := u.stackpointer + 1 }, specAttach pt w)) ∧
        (∀ p pt aux, (w.actions action).type = .Undo_MoveWaypoint →
          (w.actions action).after.head? = some p →
          (w.actions action).before.head? = some pt →
          (w.actions action).selectable.head? = some aux →
          u.UndoLastAction w =
            some (true, { u with stackpointer := u.stackpointer + 1 }, specSwap p pt aux w)) ∧
        (hasEntries (w.actions action) = true →
          ∃ w1, w1.actions = w.actions ∧
            u.UndoLastAction w =
              some (true, { u with stackpointer := u.stackpointer + 1 }, w1)) ∧
        (hasEntries (w.actions action) = false → u.UndoLastAction w = none)) := by
  refine ⟨?_, UndoLastAction_nothing u w, ?_⟩
  · intro r u1 w1 h
    rcases UndoLastAction_undo _ _ _ _ _ h with ⟨hge, hr, _, _⟩ | ⟨hlt, hr, _⟩
    · simp [hr, hge]
    · simp [hr, hlt]
  · intro hlt
    have ha : u.undoStack.get? u.stackpointer = some (u.undoStack.get ⟨_, hlt⟩) :=
      List.get?_eq_get hlt
    have heq := UndoLastAction_eq u w _ hlt ha
    refine ⟨_, ha, ?_, ?_, ?_, ?_, ?_⟩
    · intro pt ht hb
      rw [heq]
      simp only [dispatchUndo, ht, doRedoDeleteWaypoint_eq_specDetach _ pt w hb,
        Option.map_some']
    · intro pt ht hb
      rw [heq]
      simp only [dispatchUndo, ht, doUndoDeleteWaypoint_eq_specAttach _ pt w hb,
        Option.map_some']
    · intro p pt aux ht hp hb hs
      rw [heq]
      simp only [dispatchUndo, ht, doUndoMoveWaypoint_eq_specSwap _ p pt aux w hp hb hs,
        Option.map_some']
    · intro he
      obtain ⟨w1, hw1⟩ := dispatchUndo_defined _ w he
      refine ⟨w1, dispatchUndo_actions _ _ _ hw1, ?_⟩
      rw [heq, hw1]
      rfl
    · intro he
      rw [heq, (dispatch_none _ w he).1]
      rfl

/-- Witness of C2: waypoint `1` has been moved from (0, 0) to (1, 1) inside a
committed transaction (record 100, snapshot 101, entry 2); there is a record to
undo, and `Undo()` succeeds with the swapped world, in which the waypoint is
back at (0, 0) and the snapshot holds (1, 1). -/
theorem C2_undo_contract_witness :
    (afterEvents (twoMoves.take 3)).1.stackpointer < (afterEvents (twoMoves.take 3)).1.undoStack.length ∧
    (afterEvents (twoMoves.take 3)).2.actions 100 =
      ⟨.Undo_MoveWaypoint, [101], [.Undo_NeedsCopy], [1], [2]⟩ ∧
    (afterEvents (twoMoves.take 3)).2.routePoints 1 = ⟨one, one⟩ ∧
    (∃ action, (afterEvents (twoMoves.take 3)).1.undoStack.get?
        ((afterEvents (twoMoves.take 3)).1.stackpointer) = some action ∧
      (∀ pt, ((afterEvents (twoMoves.take 3)).2.actions action).type = .Undo_CreateWaypoint →
        ((afterEvents (twoMoves.take 3)).2.actions action).before.head? = some pt →
        (afterEvents (twoMoves.take 3)).1.UndoLastAction (afterEvents (twoMoves.take 3)).2 =
          some (true, { (afterEvents (twoMoves.take 3)).1 with
            stackpointer := (afterEvents (twoMoves.take 3)).1.stackpointer + 1 },
            specDetach pt (afterEvents (twoMoves.take 3)).2)) ∧
      (∀ pt, ((afterEvents (twoMoves.take 3)).2.actions action).type = .Undo_DeleteWaypoint →
        ((afterEvents (twoMoves.take 3)).2.actions action).before.head? = some pt →
        (afterEvents (twoMoves.take 3)).1.UndoLastAction (afterEvents (twoMoves.take 3)).2 =
          some (true, { (afterEvents (twoMoves.take 3)).1 with
            stackpointer := (afterEvents (twoMoves.take 3)).1.stackpointer + 1 },
            specAttach pt (afterEvents (twoMoves.take 3)).2)) ∧
      (∀ p pt aux, ((afterEvents (twoMoves.take 3)).2.actions action).type = .Undo_MoveWaypoint →
        ((afterEvents (twoMoves.take 3)).2.actions action).after.head? = some p →
        ((afterEvents (twoMoves.take 3)).2.actions action).before.head? = some pt →
        ((afterEvents (twoMoves.take 3)).2.actions action).selectable.head? = some aux →
        (afterEvents (twoMoves.take 3)).1.UndoLastAction (afterEvents (twoMoves.take 3)).2 =
          some (true, { (afterEvents (twoMoves.take 3)).1 with
            stackpointer := (afterEvents (twoMoves.take 3)).1.stackpointer + 1 },
            specSwap p pt aux (afterEvents (twoMoves.take 3)).2)) ∧
      (hasEntries ((afterEvents (twoMoves.take 3)).2.actions action) = true →
        ∃ w1, w1.actions = (afterEvents (twoMoves.take 3)).2.actions ∧
          (afterEvents (twoMoves.take 3)).1.UndoLastAction (afterEvents (twoMoves.take 3)).2 =
            some (true, { (afterEvents (twoMoves.take 3)).1 with
              stackpointer := (afterEvents (twoMoves.take 3)).1.stackpointer + 1 }, w1)) ∧
      (hasEntries ((afterEvents (twoMoves.take 3)).2.actions action) = false →
        (afterEvents (twoMoves.take 3)).1.UndoLastAction (afterEvents (twoMoves.take 3)).2 = none)) ∧
    (afterEvents (twoMoves.take 3)).1.UndoLastAction (afterEvents (twoMoves.take 3)).2 =
      some (true, { (afterEvents (twoMoves.take 3)).1 with stackpointer := (afterEvents (twoMoves.take 3)).1.stackpointer + 1 },
        specSwap 1 101 2 (afterEvents (twoMoves.take 3)).2) ∧
    (specSwap 1 101 2 (afterEvents (twoMoves.take 3)).2).routePoints 1 = ⟨0, 0⟩ ∧
    (specSwap 1 101 2 (afterEvents (twoMoves.take 3)).2).realPoints 101 = ⟨one, one⟩ := by
  have h := (C2_undo_contract (afterEvents (twoMoves.take 3)).1 (afterEvents (twoMoves.take 3)).2).2.2 (by decide)
  refine ⟨by decide, rfl, rfl, h, ?_, rfl, rfl⟩
  obtain ⟨action, hget, _, _, hmove, _, _⟩ := h
  have haction : action = 100 := (Option.some.inj hget).symm
  subst haction
  exact hmove 1 101 2 rfl rfl rfl rfl

/-- C3, contract of `Redo()`: it returns failure exactly when `cursor = 0`, and
then nothing changes (controller and world are the same).  Otherwise (with the
cursor inside the history) it acts on the record at index `cursor - 1` and on
no other: for a CreateWaypoint record the world becomes the attached world of
`before[0]`, for a DeleteWaypoint record the detached world of `before[0]`, for
a MoveWaypoint record the world with `after[0]` and `before[0]` swapped and
`selectable[0]` moved along; success is returned, the cursor is decreased by
exactly 1, and the history, the transaction flag and the stored records are
unchanged.  A record that lacks an entry its replayer reads gives no result at
all. -/
theorem C3_redo_contract (u : Undo) (w : World) :
    (∀ r u1 w1, u.RedoNextAction w = some (r, u1, w1) →
      (r = false ↔ u.stackpointer = 0)) ∧
    (u.stackpointer = 0 → u.RedoNextAction w = some (false, u, w)) ∧
    (0 < u.stackpointer → u.stackpointer ≤ u.undoStack.length →
      ∃ action, u.undoStack.get? (u.stackpointer - 1) = some action ∧
        (∀ pt, (w.actions action).type = .Undo_CreateWaypoint →
          (w.actions action).before.head? = some pt →
          u.RedoNextAction w =
            some (true, { u with stackpointer := u.stackpointer - 1 }, specAttach pt w)) ∧
        (∀ pt, (w.actions action).type = .Undo_DeleteWaypoint →
          (w.actions action).before.head? = some pt →
          u.RedoNextAction w =
            some (true, { u with stackpointer := u.stackpointer - 1 }, specDetach pt w)) ∧
        (∀ p pt aux, (w.actions action).type = .Undo_MoveWaypoint →
          (w.actions action).after.head? = some p →
          (w.actions action).before.head? = some pt →
          (w.actions action).selectable.head? = some aux →
          u.RedoNextAction w =
            some (true, { u with stackpointer := u.stackpointer - 1 }, specSwap p pt aux w)) ∧
        (hasEntries (w.actions action) = true →
          ∃ w1, w1.actions = w.actions ∧
            u.RedoNextAction w =
              some (true, { u with stackpointer := u.stackpointer - 1 }, w1)) ∧
        (hasEntries (w.actions action) = false → u.RedoNextAction w = none)) := by
  refine ⟨?_, RedoNextAction_nothing u w, ?_⟩
  · intro r u1 w1 h
    rcases RedoNextAction_undo _ _ _ _ _ h with ⟨h0, hr, _, _⟩ | ⟨hpos, hr, _⟩
    · simp [hr, h0]
    · simp [hr, Nat.pos_iff_ne_zero.mp hpos]
  · intro hpos hle
    have hlt : u.stackpointer - 1 < u.undoStack.length := by omega
    have ha : u.undoStack.get? (u.stackpointer - 1) = some (u.undoStack.get ⟨_, hlt⟩) :=
      List.get?_eq_get hlt
    have heq := RedoNextAction_eq u w _ hpos ha
    refine ⟨_, ha, ?_, ?_, ?_, ?_, ?_⟩
    · intro pt ht hb
      rw [heq]
      simp only [dispatchRedo, ht, doUndoDeleteWaypoint_eq_specAttach _ pt w hb,
        Option.map_some']
    · intro pt ht hb
      rw [heq]
      simp only [dispatchRedo, ht, doRedoDeleteWaypoint_eq_specDetach _ pt w hb,
        Option.map_some']
    · intro p pt aux ht hp hb hs
      rw [heq]
      simp only [dispatchRedo, ht, doUndoMoveWaypoint_eq_specSwap _ p pt aux w hp hb hs,
        Option.map_some']
    · intro he
      obtain ⟨w1, hw1⟩ := dispatchRedo_defined _ w he
      refine ⟨w1, dispatchRedo_actions _ _ _ hw1, ?_⟩
      rw [heq, hw1]
      rfl
    · intro he
      rw [heq, (dispatch_none _ w he).2]
      rfl

/-- Witness of C3: the committed move of waypoint `1` from (0, 0) to (1, 1)
has been undone (record 100, snapshot 101, entry 2, cursor 1); `Redo()`
succeeds on the record at index 0 with the swapped world, in which the waypoint
is at (1, 1) again and the snapshot holds (0, 0). -/
theorem C3_redo_contract_witness :
    0 < (afterEvents (twoMoves.take 3 ++ [.call .UndoCall])).1.stackpointer ∧
    (afterEvents (twoMoves.take 3 ++ [.call .UndoCall])).1.stackpointer ≤ (afterEvents (twoMoves.take 3 ++ [.call .UndoCall])).1.undoStack.length ∧
    (afterEvents (twoMoves.take 3 ++ [.call .UndoCall])).2.actions 100 =
      ⟨.Undo_MoveWaypoint, [101], [.Undo_NeedsCopy], [1], [2]⟩ ∧
    (afterEvents (twoMoves.take 3 ++ [.call .UndoCall])).2.routePoints 1 = ⟨0, 0⟩ ∧
    (∃ action, (afterEvents (twoMoves.take 3 ++ [.call .UndoCall])).1.undoStack.get?
        ((afterEvents (twoMoves.take 3 ++ [.call .UndoCall])).1.stackpointer - 1) = some action ∧
      (∀ pt, ((afterEvents (twoMoves.take 3 ++ [.call .UndoCall])).2.actions action).type = .Undo_CreateWaypoint →
        ((afterEvents (twoMoves.take 3 ++ [.call .UndoCall])).2.actions action).before.head? = some pt →
        (afterEvents (twoMoves.take 3 ++ [.call .UndoCall])).1.RedoNextAction (afterEvents (twoMoves.take 3 ++ [.call .UndoCall])).2 =
          some (true, { (afterEvents (twoMoves.take 3 ++ [.call .UndoCall])).1 with
            stackpointer := (afterEvents (twoMoves.take 3 ++ [.call .UndoCall])).1.stackpointer - 1 },
            specAttach pt (afterEvents (twoMoves.take 3 ++ [.call .UndoCall])).2)) ∧
      (∀ pt, ((afterEvents (twoMoves.take 3 ++ [.call .UndoCall])).2.actions action).type = .Undo_DeleteWaypoint →
        ((afterEvents (twoMoves.take 3 ++ [.call .UndoCall])).2.actions action).before.head? = some pt →
        (afterEvents (twoMoves.take 3 ++ [.call .UndoCall])).1.RedoNextAction (afterEvents (twoMoves.take 3 ++ [.call .UndoCall])).2 =
          some (true, { (afterEvents (twoMoves.take 3 ++ [.call .UndoCall])).1 with
            stackpointer := (afterEvents (twoMoves.take 3 ++ [.call .UndoCall])).1.stackpointer - 1 },
            specDetach pt (afterEvents (twoMoves.take 3 ++ [.call .UndoCall])).2)) ∧
      (∀ p pt aux, ((afterEvents (twoMoves.take 3 ++ [.call .UndoCall])).2.actions action).type = .Undo_MoveWaypoint →
        ((afterEvents (twoMoves.take 3 ++ [.call .UndoCall])).2.actions action).after.head? = some p →
        ((afterEvents (twoMoves.take 3 ++ [.call .UndoCall])).2.actions action).before.head? = some pt →
        ((afterEvents (twoMoves.take 3 ++ [.call .UndoCall])).2.actions action).selectable.head? = some aux →
        (afterEvents (twoMoves.take 3 ++ [.call .UndoCall])).1.RedoNextAction (afterEvents (twoMoves.take 3 ++ [.call .UndoCall])).2 =
          some (true, { (afterEvents (twoMoves.take 3 ++ [.call .UndoCall])).1 with
            stackpointer := (afterEvents (twoMoves.take 3 ++ [.call .UndoCall])).1.stackpointer - 1 },
            specSwap p pt aux (afterEvents (twoMoves.take 3 ++ [.call .UndoCall])).2)) ∧
      (hasEntries ((afterEvents (twoMoves.take 3 ++ [.call .UndoCall])).2.actions action) = true →
        ∃ w1, w1.actions = (afterEvents (twoMoves.take 3 ++ [.call .UndoCall])).2.actions ∧
          (afterEvents (twoMoves.take 3 ++ [.call .UndoCall])).1.RedoNextAction (afterEvents (twoMoves.take 3 ++ [.call .UndoCall])).2 =
            some (true, { (afterEvents (twoMoves.take 3 ++ [.call .UndoCall])).1 with
              stackpointer := (afterEvents (twoMoves.take 3 ++ [.call .UndoCall])).1.stackpointer - 1 }, w1)) ∧
      (hasEntries ((afterEvents (twoMoves.take 3 ++ [.call .UndoCall])).2.actions action) = false →
        (afterEvents (twoMoves.take 3 ++ [.call .UndoCall])).1.RedoNextAction (afterEvents (twoMoves.take 3 ++ [.call .UndoCall])).2 = none)) ∧
    (afterEvents (twoMoves.take 3 ++ [.call .UndoCall])).1.RedoNextAction (afterEvents (twoMoves.take 3 ++ [.call .UndoCall])).2 =
      some (true, { (afterEvents (twoMoves.take 3 ++ [.call .UndoCall])).1 with stackpointer := (afterEvents (twoMoves.take 3 ++ [.call .UndoCall])).1.stackpointer - 1 },
        specSwap 1 101 2 (afterEvents (twoMoves.take 3 ++ [.call .UndoCall])).2) ∧
    (specSwap 1 101 2 (afterEvents (twoMoves.take 3 ++ [.call .UndoCall])).2).routePoints 1 = ⟨one, one⟩ ∧
    (specSwap 1 101 2 (afterEvents (twoMoves.take 3 ++ [.call .UndoCall])).2).realPoints 101 = ⟨0, 0⟩ := by
  have h := (C3_redo_contract (afterEvents (twoMoves.take 3 ++ [.call .UndoCall])).1 (afterEvents (twoMoves.take 3 ++ [.call .UndoCall])).2).2.2 (by decide) (by decide)
  refine ⟨by decide, by decide, rfl, rfl, h, ?_, rfl, rfl⟩
  obtain ⟨action, hget, _, _, hmove, _, _⟩ := h
  have haction : action = 100 := (Option.some.inj hget).symm
  subst haction
  exact hmove 1 101 2 rfl rfl rfl rfl

/-- C9, `Commit` while idle: `AfterUndoableAction` called with no transaction
open returns failure and leaves the controller (history, cursor, flag) and the
world exactly as they were. -/
theorem C9_commit_idle_noop (after : Ptr) (u : Undo) (w : World)
    (h : u.isInsideUndoableAction = false) :
    u.AfterUndoableAction after w = some (false, u, w) := by
  unfold Undo.AfterUndoableAction
  simp [h]

/-- Witness of C9: a `Commit` on the freshly constructed controller. -/
theorem C9_commit_idle_noop_witness :
    Undo.new.isInsideUndoableAction = false ∧
      Undo.new.AfterUndoableAction 7 World.blank = some (false, Undo.new, World.blank) :=
  ⟨rfl, C9_commit_idle_noop 7 Undo.new World.blank rfl⟩

/-- C4, move round trip: when `Begin(MoveWaypoint, p, NeedsCopy, aux)` succeeds
while `p` is at position `P0`, `p` is then moved to `P1` and `Commit(p)` is
called (depth at least 1), then `Commit`, `Undo`, `Redo` and `Undo` all succeed,
the first `Undo()` puts `p` at exactly `P0`, the `Redo()` at exactly `P1`, and
the second `Undo()` at exactly `P0` again. -/
theorem C4_move_round_trip (u : Undo) (w : World) (p aux : Ptr) (P1 : RoutePoint)
    (u1 : Undo) (w1 : World) (hd : 1 ≤ u.depthSetting)
    (hb : u.BeforeUndoableAction .Undo_MoveWaypoint p .Undo_NeedsCopy aux w
      = some (true, u1, w1)) :
    ∃ u2 w2 u3 w3 u4 w4 u5 w5,
      u1.AfterUndoableAction p (moveTo p P1 w1) = some (true, u2, w2) ∧
      u2.UndoLastAction w2 = some (true, u3, w3) ∧ w3.routePoints p = w.routePoints p ∧
      u3.RedoNextAction w3 = some (true, u4, w4) ∧ w4.routePoints p = P1 ∧
      u4.UndoLastAction w4 = some (true, u5, w5) ∧ w5.routePoints p = w.routePoints p := by
  obtain ⟨hu1, hrec, hsnap, hrp⟩ := BeforeUndoableAction_move_copy p aux u u1 w w1 hb
  obtain ⟨t, ht⟩ := pushed_head w.next (u.undoStack.drop u.stackpointer) u.depthSetting hd
  -- the state after `Commit`
  have hcommit : ∃ w2, u1.AfterUndoableAction p (moveTo p P1 w1) =
      some (true, { u1 with undoStack := w.next :: t, isInsideUndoableAction := false }, w2) ∧
      w2.actions w.next = ⟨.Undo_MoveWaypoint, [w.next + 1], [.Undo_NeedsCopy], [p], [aux]⟩ ∧
      w2.realPoints (w.next + 1) = ⟨(w.routePoints p).m_lon, (w.routePoints p).m_lat⟩ ∧
      w2.routePoints p = P1 := by
    have hopen := AfterUndoableAction_open p u1 (moveTo p P1 w1) (by rw [hu1])
    have hstack : (if (u1.candidate :: u1.undoStack).length > u1.depthSetting
        then (u1.candidate :: u1.undoStack).dropLast else u1.candidate :: u1.undoStack)
        = w.next :: t := by rw [hu1]; exact ht
    have hcand : u1.candidate = w.next := by rw [hu1]
    rw [hstack] at hopen
    refine ⟨_, hopen, ?_, ?_, ?_⟩
    · simp [moveTo, upd, hrec, hcand]
    · simp [moveTo, hsnap]
    · simp [moveTo, upd]
  obtain ⟨w2, hc2, hrec2, hsnap2, hpos2⟩ := hcommit
  have hsp1 : u1.stackpointer = 0 := by rw [hu1]
  -- first `Undo()`
  obtain ⟨w3, hundo, hact3, hrp3, hsn3, _⟩ :=
    UndoLastAction_move { u1 with undoStack := w.next :: t, isInsideUndoableAction := false }
      w2 w.next p (w.next + 1) aux
      (by simp [hsp1]) (by simp [hsp1]) (by rw [hrec2]) (by rw [hrec2]; rfl)
      (by rw [hrec2]; rfl) (by rw [hrec2]; rfl)
  -- `Redo()`
  obtain ⟨w4, hredo, hact4, hrp4, hsn4, _⟩ :=
    RedoNextAction_move
      { u1 with undoStack := w.next :: t, isInsideUndoableAction := false,
                stackpointer := u1.stackpointer + 1 }
      w3 w.next p (w.next + 1) aux
      (by simp) (by simp [hsp1]) (by rw [hact3, hrec2]) (by rw [hact3, hrec2]; rfl)
      (by rw [hact3, hrec2]; rfl) (by rw [hact3, hrec2]; rfl)
  -- second `Undo()`
  obtain ⟨w5, hundo2, _, hrp5, _, _⟩ :=
    UndoLastAction_move
      { u1 with undoStack := w.next :: t, isInsideUndoableAction := false,
                stackpointer := u1.stackpointer + 1 - 1 }
      w4 w.next p (w.next + 1) aux
      (by simp [hsp1]) (by simp [hsp1]) (by rw [hact4, hact3, hrec2])
      (by rw [hact4, hact3, hrec2]; rfl) (by rw [hact4, hact3, hrec2]; rfl)
      (by rw [hact4, hact3, hrec2]; rfl)
  refine ⟨_, w2, _, w3, _, w4, _, w5, hc2, hundo, ?_, hredo, ?_, hundo2, ?_⟩
  · rw [hrp3, hsnap2]
  · rw [hrp4, hsn3, hpos2]
  · rw [hrp5, hsn4, hrp3, hsnap2]

/-- Witness of C4: waypoint `1` at (3, 4) is moved to (5, 6) inside a
transaction on a fresh controller. -/
theorem C4_move_round_trip_witness :
    1 ≤ Undo.new.depthSetting ∧
    Undo.new.BeforeUndoableAction .Undo_MoveWaypoint 1 .Undo_NeedsCopy 2
        (moveTo 1 ⟨3, 4⟩ World.blank) =
      some (true, { Undo.new with candidate := 100, isInsideUndoableAction := true },
        ((Undo.new.BeforeUndoableAction .Undo_MoveWaypoint 1 .Undo_NeedsCopy 2
          (moveTo 1 ⟨3, 4⟩ World.blank)).getD (true, Undo.new, World.blank)).2.2) ∧
    ∃ u2 w2 u3 w3 u4 w4 u5 w5,
      Undo.AfterUndoableAction 1
          { Undo.new with candidate := 100, isInsideUndoableAction := true }
          (moveTo 1 ⟨5, 6⟩
            ((Undo.new.BeforeUndoableAction .Undo_MoveWaypoint 1 .Undo_NeedsCopy 2
              (moveTo 1 ⟨3, 4⟩ World.blank)).getD (true, Undo.new, World.blank)).2.2) =
        some (true, u2, w2) ∧
      u2.UndoLastAction w2 = some (true, u3, w3) ∧
      w3.routePoints 1 = (moveTo 1 ⟨3, 4⟩ World.blank).routePoints 1 ∧
      u3.RedoNextAction w3 = some (true, u4, w4) ∧ w4.routePoints 1 = ⟨5, 6⟩ ∧
      u4.UndoLastAction w4 = some (true, u5, w5) ∧
      w5.routePoints 1 = (moveTo 1 ⟨3, 4⟩ World.blank).routePoints 1 :=
  ⟨by decide, rfl,
    C4_move_round_trip Undo.new (moveTo 1 ⟨3, 4⟩ World.blank) 1 2 ⟨5, 6⟩ _ _ (by decide) rfl⟩

/-- C5, depth bound: starting from an empty idle controller with depth `N`,
`N + k` successive Begin/Commit pairs all succeed and leave exactly `N` records
in the history, namely the `N` most recently committed ones, newest first; the
`k` oldest are not in it; and `AnythingToRedo()` is false immediately after each
`Commit`.  (It holds for every `N` and `k`, in particular for `N ≥ 1`, `k > 0`.) -/
theorem C5_depth_bound (N k : Nat) (acts : List Action) (hlen : acts.length = N + k)
    (u : Undo) (w : World) (hempty : u.undoStack = []) (hs : u.stackpointer = 0)
    (hf : u.isInsideUndoableAction = false) (hd : u.depthSetting = N) :
    ∃ trace u1 w1, commitAll acts u w = some (trace, u1, w1) ∧
      trace.length = N + k ∧ (trace.map Prod.fst).Nodup ∧
      u1.undoStack.length = N ∧
      u1.undoStack = ((trace.map Prod.fst).drop k).reverse ∧
      (∀ c ∈ (trace.map Prod.fst).take k, c ∉ u1.undoStack) ∧
      (∀ x ∈ trace, x.2 = false) := by
  obtain ⟨trace, u1, w1, hrun, hl, hredo, hpair, _, hstack, _, _⟩ :=
    commitAll_spec N acts u w hf hs hd (by simp [hempty])
  have hnodup : (trace.map Prod.fst).Nodup := hpair.imp (fun h => Nat.ne_of_lt h)
  have hlen2 : (trace.map Prod.fst).length = N + k := by rw [List.length_map, hl, hlen]
  have hstack2 : u1.undoStack = ((trace.map Prod.fst).drop k).reverse := by
    rw [hstack, hempty, List.append_nil, List.take_reverse, hlen2]
    congr 2
    omega
  refine ⟨trace, u1, w1, hrun, by rw [hl, hlen], hnodup, ?_, hstack2, ?_, hredo⟩
  · rw [hstack2, List.length_reverse, List.length_drop, hlen2]
    omega
  · intro c hc hin
    rw [hstack2, List.mem_reverse] at hin
    exact List.disjoint_take_drop hnodup (Nat.le_refl k) hc hin

/-- Witness of C5: depth 2 and three committed actions. -/
theorem C5_depth_bound_witness :
    ∃ trace u1 w1,
      commitAll threeActions { Undo.new with depthSetting := 2 } World.blank
        = some (trace, u1, w1) ∧
      trace.length = 2 + 1 ∧ (trace.map Prod.fst).Nodup ∧
      u1.undoStack.length = 2 ∧
      u1.undoStack = ((trace.map Prod.fst).drop 1).reverse ∧
      (∀ c ∈ (trace.map Prod.fst).take 1, c ∉ u1.undoStack) ∧
      (∀ x ∈ trace, x.2 = false) :=
  C5_depth_bound 2 1 threeActions rfl { Undo.new with depthSetting := 2 } World.blank
    rfl rfl rfl rfl

/-- C6, branch invalidation: a `Begin` that succeeds (hence was called while
idle) with cursor `c` removes exactly the records at indices `[0, c)`, keeps
those at `[c, length)` in order and sets the cursor to 0, so a `Redo()` right
after it returns failure; and for a controller reached from a fresh one, the
removed records are not in the history after the `Begin` nor in any later state,
so `Redo()` never acts on one of them again. -/
theorem C6_branch_invalidation (type : UndoType) (before : Ptr)
    (beforeType : UndoBeforePointerType) (selectable : Ptr) (u u1 : Undo) (w w1 : World)
    (hb : u.BeforeUndoableAction type before beforeType selectable w = some (true, u1, w1)) :
    u.isInsideUndoableAction = false ∧
    u.stackpointer ≤ u.undoStack.length ∧
    u.undoStack = u.undoStack.take u.stackpointer ++ u1.undoStack ∧
    u1.undoStack = u.undoStack.drop u.stackpointer ∧
    u1.stackpointer = 0 ∧
    u1.RedoNextAction w1 = some (false, u1, w1) ∧
    (∀ calls0 w0, run calls0 Undo.new w0 = some (u, w) →
      ∀ p ∈ u.undoStack.take u.stackpointer,
        p ∉ u1.undoStack ∧
        ∀ calls u2 w2, run calls u1 w1 = some (u2, w2) →
          p ∉ u2.undoStack ∧ u2.GetNextRedoableAction ≠ some p) := by
  obtain ⟨hf, hle, hu1, hnext⟩ := BeforeUndoableAction_success _ _ _ _ _ _ _ _ hb
  have hstack : u1.undoStack = u.undoStack.drop u.stackpointer := by rw [hu1]
  have hsp : u1.stackpointer = 0 := by rw [hu1]
  refine ⟨hf, hle, ?_, hstack, hsp, RedoNextAction_nothing u1 w1 hsp, ?_⟩
  · rw [hstack, List.take_append_drop]
  · intro calls0 w0 hreach p hp
    obtain ⟨hn, hall, _⟩ := run_histInv calls0 Undo.new u w0 w hreach (histInv_new w0)
    have hnot : p ∉ u1.undoStack := by
      rw [hstack]
      exact fun hin => List.disjoint_take_drop hn (Nat.le_refl _) hp hin
    have hlt : p < w.next := hall p (List.mem_of_mem_take hp)
    have hg : gone p u1 w1 :=
      ⟨Nat.lt_trans hlt hnext, hnot, fun _ heq => by
        rw [hu1] at heq
        exact Nat.lt_irrefl _ (heq ▸ hlt)⟩
    refine ⟨hnot, fun calls u2 w2 hrun => ?_⟩
    obtain ⟨_, hnot2, _⟩ := run_gone p calls u1 u2 w1 w2 hrun hg
    refine ⟨hnot2, fun hget => ?_⟩
    unfold Undo.GetNextRedoableAction at hget
    split at hget
    · exact absurd hget (by simp)
    · exact hnot2 (List.get?_mem hget)

/-- Witness of C6: a move is committed and undone (cursor 1), then a new
`Begin` succeeds. -/
theorem C6_branch_invalidation_witness :
    (afterCalls moveUndone).1.stackpointer = 1 ∧
    (afterCalls moveUndone).1.undoStack = [100] ∧
    (afterCalls moveUndone).1.isInsideUndoableAction = false ∧
    (afterCalls moveUndone).1.stackpointer ≤ (afterCalls moveUndone).1.undoStack.length ∧
    (afterCalls moveUndone).1.undoStack =
      (afterCalls moveUndone).1.undoStack.take (afterCalls moveUndone).1.stackpointer ++
        (afterCalls moveBranched).1.undoStack ∧
    (afterCalls moveBranched).1.undoStack =
      (afterCalls moveUndone).1.undoStack.drop (afterCalls moveUndone).1.stackpointer ∧
    (afterCalls moveBranched).1.stackpointer = 0 ∧
    (afterCalls moveBranched).1.RedoNextAction (afterCalls moveBranched).2 =
      some (false, (afterCalls moveBranched).1, (afterCalls moveBranched).2) ∧
    (∀ calls0 w0, run calls0 Undo.new w0 = some (afterCalls moveUndone) →
      ∀ p ∈ (afterCalls moveUndone).1.undoStack.take (afterCalls moveUndone).1.stackpointer,
        p ∉ (afterCalls moveBranched).1.undoStack ∧
        ∀ calls u2 w2,
          run calls (afterCalls moveBranched).1 (afterCalls moveBranched).2 = some (u2, w2) →
          p ∉ u2.undoStack ∧ u2.GetNextRedoableAction ≠ some p) :=
  ⟨rfl, rfl,
    C6_branch_invalidation .Undo_CreateWaypoint 3 .Undo_HasParent 4
      (afterCalls moveUndone).1 (afterCalls moveBranched).1
      (afterCalls moveUndone).2 (afterCalls moveBranched).2 rfl⟩

/-- C7, the code at the failing input: after `Begin` and a second `Begin`
(which returns failure and deletes the candidate, record 100), the transaction
flag is still set, and the `Commit` that follows returns success and inserts
the deleted record into the history. -/
theorem C7_reentrant_begin_leaves_transaction_open :
    step (.Begin .Undo_MoveWaypoint 1 .Undo_NeedsCopy 2)
        (afterCalls [.Begin .Undo_MoveWaypoint 1 .Undo_NeedsCopy 2]).1
        (afterCalls [.Begin .Undo_MoveWaypoint 1 .Undo_NeedsCopy 2]).2 =
      some (false, afterCalls beginTwice) ∧
    (afterCalls beginTwice).1.isInsideUndoableAction = true ∧
    (afterCalls beginTwice).1.candidate = 100 ∧
    (afterCalls beginTwice).1.undoStack = [] ∧
    Released.action 100 ∈ (afterCalls beginTwice).2.released ∧
    (afterCalls beginTwice).1.AfterUndoableAction 1 (afterCalls beginTwice).2 =
      some (true, afterCalls (beginTwice ++ [.Commit 1])) ∧
    (afterCalls (beginTwice ++ [.Commit 1])).1.undoStack = [100] :=
  ⟨rfl, rfl, rfl, rfl, by decide, rfl, rfl⟩

/-- C8 fails as stated: a move is committed, a new `Begin` succeeds, `Undo()`
is called before the `Commit`; the `Commit` returns success with cursor 1,
`AnythingToRedo()` true, and the record `Undo()` would act on next is the old
record 100, not the newly committed record 102. -/
theorem C8_counterexample :
    run undoInsideTransaction Undo.new World.blank = some (afterCalls undoInsideTransaction) ∧
    (afterCalls undoInsideTransaction).1.AfterUndoableAction 1
        (afterCalls undoInsideTransaction).2 =
      some (true, afterCalls (undoInsideTransaction ++ [.Commit 1])) ∧
    (afterCalls (undoInsideTransaction ++ [.Commit 1])).1.undoStack = [102, 100] ∧
    (afterCalls (undoInsideTransaction ++ [.Commit 1])).1.stackpointer = 1 ∧
    (afterCalls (undoInsideTransaction ++ [.Commit 1])).1.AnythingToRedo = true ∧
    (afterCalls (undoInsideTransaction ++ [.Commit 1])).1.GetNextUndoableAction = some 100 :=
  ⟨rfl, rfl, rfl, rfl, rfl, rfl⟩

/-- C8 as amended: a `Commit` that returns success (depth at least 1) puts the
newly committed record at history index 0 and leaves the cursor as it was.  So
when the cursor is 0 at the `Commit`, in particular when the `Commit` directly
follows its successful `Begin`, the cursor is 0 afterwards, `AnythingToRedo()`
is false and the new record is the next one `Undo()` acts on. -/
theorem C8_commit_success_amended (after : Ptr) (u u1 : Undo) (w w1 : World)
    (hd : 1 ≤ u.depthSetting) (h : u.AfterUndoableAction after w = some (true, u1, w1)) :
    u1.undoStack.get? 0 = some u.candidate ∧
    u1.stackpointer = u.stackpointer ∧
    (u.stackpointer = 0 →
      u1.stackpointer = 0 ∧ u1.AnythingToRedo = false ∧
        u1.GetNextUndoableAction = some u.candidate) ∧
    (∀ type before beforeType selectable u0 w0 wb,
      Undo.BeforeUndoableAction type before beforeType selectable u0 w0 = some (true, u, wb) →
      u1.stackpointer = 0 ∧ u1.AnythingToRedo = false ∧
        u1.GetNextUndoableAction = some u.candidate) := by
  rcases AfterUndoableAction_undo _ _ _ _ _ _ h with ⟨_, hr, _, _⟩ | ⟨_, _, hu⟩
  · exact absurd hr (by simp)
  · obtain ⟨t, ht⟩ := pushed_head u.candidate u.undoStack u.depthSetting hd
    rw [ht] at hu
    have h0 : u1.undoStack.get? 0 = some u.candidate := by rw [hu]; rfl
    have hsp : u1.stackpointer = u.stackpointer := by rw [hu]
    have hzero : u.stackpointer = 0 →
        u1.stackpointer = 0 ∧ u1.AnythingToRedo = false ∧
          u1.GetNextUndoableAction = some u.candidate := by
      intro hz
      refine ⟨hsp.trans hz, ?_, ?_⟩
      · simp [Undo.AnythingToRedo, hsp, hz]
      · unfold Undo.GetNextUndoableAction
        rw [hsp, hz]
        exact h0
    refine ⟨h0, hsp, hzero, ?_⟩
    intro type before beforeType selectable u0 w0 wb hb
    obtain ⟨_, _, hu0, _⟩ := BeforeUndoableAction_success _ _ _ _ _ _ _ _ hb
    exact hzero (by rw [hu0])

/-- Witness of C8 as amended: the `Commit` of a move on a fresh controller. -/
theorem C8_commit_success_amended_witness :
    1 ≤ (afterCalls [.Begin .Undo_MoveWaypoint 1 .Undo_NeedsCopy 2]).1.depthSetting ∧
    (afterCalls moveCommitted).1.undoStack.get? 0 =
      some (afterCalls [.Begin .Undo_MoveWaypoint 1 .Undo_NeedsCopy 2]).1.candidate ∧
    (afterCalls moveCommitted).1.stackpointer =
      (afterCalls [.Begin .Undo_MoveWaypoint 1 .Undo_NeedsCopy 2]).1.stackpointer ∧
    (afterCalls moveCommitted).1.stackpointer = 0 ∧
    (afterCalls moveCommitted).1.AnythingToRedo = false ∧
    (afterCalls moveCommitted).1.GetNextUndoableAction =
      some (afterCalls [.Begin .Undo_MoveWaypoint 1 .Undo_NeedsCopy 2]).1.candidate :=
  have h := C8_commit_success_amended 1
    (afterCalls [.Begin .Undo_MoveWaypoint 1 .Undo_NeedsCopy 2]).1 (afterCalls moveCommitted).1
    (afterCalls [.Begin .Undo_MoveWaypoint 1 .Undo_NeedsCopy 2]).2 (afterCalls moveCommitted).2
    (by decide) rfl
  ⟨by decide, h.1, h.2.1, h.2.2.1 rfl⟩

/-- C10 fails as stated: `ClearAll` issued while a transaction is open leaves
the transaction open, and the `Commit` that follows returns success and puts
record 100 into the history. -/
theorem C10_counterexample :
    (afterCalls [.Begin .Undo_MoveWaypoint 1 .Undo_NeedsCopy 2]).1.isInsideUndoableAction
      = true ∧
    (afterCalls [.Begin .Undo_MoveWaypoint 1 .Undo_NeedsCopy 2]).1.InvalidateUndo.isInsideUndoableAction
      = true ∧
    (afterCalls [.Begin .Undo_MoveWaypoint 1 .Undo_NeedsCopy 2]).1.InvalidateUndo.AfterUndoableAction
        1 (afterCalls [.Begin .Undo_MoveWaypoint 1 .Undo_NeedsCopy 2]).2 =
      some (true,
        afterCalls [.Begin .Undo_MoveWaypoint 1 .Undo_NeedsCopy 2, .ClearAll, .Commit 1]) ∧
    (afterCalls [.Begin .Undo_MoveWaypoint 1 .Undo_NeedsCopy 2, .ClearAll, .Commit 1]).1.undoStack
      = [100] :=
  ⟨rfl, rfl, rfl, rfl⟩

/-- C10 as amended: `ClearAll` (`InvalidateUndo`), called in any state, leaves
the history empty and the cursor 0 and does not touch the transaction flag, the
candidate or the depth; called while idle it leaves the controller idle, and a
`Commit` issued right after returns failure and the history stays empty. -/
theorem C10_clear_all_amended (u : Undo) (w : World) :
    u.InvalidateUndo.undoStack = [] ∧ u.InvalidateUndo.stackpointer = 0 ∧
    u.InvalidateUndo.isInsideUndoableAction = u.isInsideUndoableAction ∧
    u.InvalidateUndo.candidate = u.candidate ∧
    u.InvalidateUndo.depthSetting = u.depthSetting ∧
    step .ClearAll u w = some (true, u.InvalidateUndo, w) ∧
    (u.isInsideUndoableAction = false →
      u.InvalidateUndo.isInsideUndoableAction = false ∧
      ∀ after, u.InvalidateUndo.AfterUndoableAction after w =
        some (false, u.InvalidateUndo, w)) := by
  refine ⟨rfl, rfl, rfl, rfl, rfl, rfl, fun hf => ⟨hf, fun after => ?_⟩⟩
  unfold Undo.AfterUndoableAction
  simp [Undo.InvalidateUndo, hf]

/-- Witness of C10 as amended: `ClearAll` after a committed move, while idle. -/
theorem C10_clear_all_amended_witness :
    (afterCalls moveCommitted).1.undoStack = [100] ∧
    (afterCalls moveCommitted).1.isInsideUndoableAction = false ∧
    (afterCalls moveCommitted).1.InvalidateUndo.undoStack = [] ∧
    (afterCalls moveCommitted).1.InvalidateUndo.isInsideUndoableAction = false ∧
    ∀ after, (afterCalls moveCommitted).1.InvalidateUndo.AfterUndoableAction after
        (afterCalls moveCommitted).2 =
      some (false, (afterCalls moveCommitted).1.InvalidateUndo, (afterCalls moveCommitted).2) :=
  have h := C10_clear_all_amended (afterCalls moveCommitted).1 (afterCalls moveCommitted).2
  ⟨rfl, rfl, h.1, (h.2.2.2.2.2.2 rfl).1, (h.2.2.2.2.2.2 rfl).2⟩

/-- C12, concrete scenario, undo/redo trace: with depth 2 and waypoint A at
(0, 0), after the committed moves (0,0)->(1,1) and (1,1)->(2,2) the history is
[MoveRec2, MoveRec1] (records 102 and 100) with cursor 0; `Undo()` succeeds and
gives A at (1, 1), cursor 1; a second `Undo()` succeeds and gives A at (0, 0),
cursor 2; a third `Undo()` returns failure and changes nothing; `Redo()` then
succeeds and gives A at (1, 1), cursor 1. -/
theorem C12_scenario_trace :
    (afterEvents (twoMoves.take 1)).1.candidate = 100 ∧
    (afterEvents (twoMoves.take 4)).1.candidate = 102 ∧
    play twoMoves depthTwo World.blank = some (afterEvents twoMoves) ∧
    (afterEvents twoMoves).1.undoStack = [102, 100] ∧
    (afterEvents twoMoves).1.stackpointer = 0 ∧
    (afterEvents twoMoves).2.routePoints 1 = ⟨two, two⟩ ∧
    step .UndoCall (afterEvents twoMoves).1 (afterEvents twoMoves).2 =
      some (true, afterEvents (twoMoves ++ [.call .UndoCall])) ∧
    (afterEvents (twoMoves ++ [.call .UndoCall])).2.routePoints 1 = ⟨one, one⟩ ∧
    (afterEvents (twoMoves ++ [.call .UndoCall])).1.stackpointer = 1 ∧
    step .UndoCall (afterEvents (twoMoves ++ [.call .UndoCall])).1
        (afterEvents (twoMoves ++ [.call .UndoCall])).2 =
      some (true, afterEvents (twoMoves ++ [.call .UndoCall, .call .UndoCall])) ∧
    (afterEvents (twoMoves ++ [.call .UndoCall, .call .UndoCall])).2.routePoints 1 = ⟨0, 0⟩ ∧
    (afterEvents (twoMoves ++ [.call .UndoCall, .call .UndoCall])).1.stackpointer = 2 ∧
    step .UndoCall (afterEvents (twoMoves ++ [.call .UndoCall, .call .UndoCall])).1
        (afterEvents (twoMoves ++ [.call .UndoCall, .call .UndoCall])).2 =
      some (false, afterEvents (twoMoves ++ [.call .UndoCall, .call .UndoCall])) ∧
    step .RedoCall (afterEvents (twoMoves ++ [.call .UndoCall, .call .UndoCall])).1
        (afterEvents (twoMoves ++ [.call .UndoCall, .call .UndoCall])).2 =
      some (true, afterEvents twoMovesReplayed) ∧
    (afterEvents twoMovesReplayed).2.routePoints 1 = ⟨one, one⟩ ∧
    (afterEvents twoMovesReplayed).1.stackpointer = 1 ∧
    (afterEvents twoMovesReplayed).1.undoStack = [102, 100] :=
  ⟨rfl, rfl, rfl, rfl, rfl, rfl, rfl, rfl, rfl, rfl, rfl, rfl, rfl, rfl, rfl, rfl, rfl⟩

/-- C13 fails as stated: from history [MoveRec2, MoveRec1] = [102, 100] with
cursor 1, the Begin/Commit of Create(B) does not give [CreateRec(B), MoveRec2]:
MoveRec2 (102) is no longer in the history and has been released, and MoveRec1
(100) is still in it. -/
theorem C13_counterexample :
    (afterEvents twoMovesReplayed).1.undoStack = [102, 100] ∧
    (afterEvents twoMovesReplayed).1.stackpointer = 1 ∧
    (afterEvents thenCreate).1.undoStack ≠ [104, 102] ∧
    102 ∉ (afterEvents thenCreate).1.undoStack ∧
    100 ∈ (afterEvents thenCreate).1.undoStack ∧
    Released.action 102 ∈ (afterEvents thenCreate).2.released :=
  ⟨rfl, rfl, by decide, by decide, by decide, by decide⟩

/-- C13 as amended: from history [MoveRec2, MoveRec1] with cursor 1, the
Begin/Commit of Create(B) makes the history [CreateRec(B), MoveRec1] (records
104 and 100) with cursor 0: MoveRec2, the undone record at index 0, is the one
removed (and released, with its snapshot), and MoveRec1, the active record, is
retained. -/
theorem C13_branch_after_redo_amended :
    (afterEvents (twoMoves.take 1)).1.candidate = 100 ∧
    (afterEvents (twoMoves.take 4)).1.candidate = 102 ∧
    play thenCreate depthTwo World.blank = some (afterEvents thenCreate) ∧
    (afterEvents thenCreate).1.undoStack = [104, 100] ∧
    (afterEvents thenCreate).1.stackpointer = 0 ∧
    (afterEvents thenCreate).1.isInsideUndoableAction = false ∧
    (afterEvents thenCreate).2.actions 104 =
      ⟨.Undo_CreateWaypoint, [3], [.Undo_HasParent], [3], [4]⟩ ∧
    (afterEvents thenCreate).2.actions 100 =
      ⟨.Undo_MoveWaypoint, [101], [.Undo_NeedsCopy], [1], [2]⟩ ∧
    (afterEvents thenCreate).2.released = [Released.realPoint 103, Released.action 102] :=
  ⟨rfl, rfl, rfl, rfl, rfl, rfl, rfl, rfl, rfl⟩

/-- C15, the code at the failing input: in a build with `NDEBUG`, three `Begin`
calls in a row release record 100 twice (the second and the third call each
`delete` the same candidate), and `Begin`, `Begin`, `Commit` followed by the
destruction of the controller releases record 100 twice as well (once by the
failed `Begin`, once by `~Undo`).  With `assert` enabled the second `delete` of
the record has no result: the destructor's assertion fails. -/
theorem C15_record_released_twice :
    (afterCallsRelease beginThrice).2.released =
      [Released.realPoint 101, Released.action 100, Released.action 100] ∧
    ((afterCallsRelease beginThrice).2.released.count (Released.action 100)) = 2 ∧
    (afterCallsRelease beginTwiceCommit).1.undoStack = [100] ∧
    ((afterCallsRelease beginTwiceCommit).1.destroy (afterCallsRelease beginTwiceCommit).2).map
        World.released =
      some [Released.realPoint 101, Released.action 100, Released.action 100] ∧
    (run beginThrice Undo.new World.blank).isNone = true ∧
    ((afterCalls beginTwiceCommit).1.destroy (afterCalls beginTwiceCommit).2).isNone = true :=
  ⟨rfl, by decide, rfl, rfl, rfl, rfl⟩

/-- C16, the code at the failing input: on a freshly constructed controller
(depth 10) ten committed moves fill the history; the eleventh `Commit` returns
success and removes the oldest record (100) from the history, and the release
log is still empty: neither the record nor its position snapshot (101) has been
released. -/
theorem C16_evicted_record_not_released :
    (afterCalls (movesCommitted 10)).1.undoStack =
      [118, 116, 114, 112, 110, 108, 106, 104, 102, 100] ∧
    (afterCalls (movesCommitted 10)).1.depthSetting = 10 ∧
    (afterCalls (movesCommitted 10 ++ [.Begin .Undo_MoveWaypoint 1 .Undo_NeedsCopy 2])).1.AfterUndoableAction
        1 (afterCalls (movesCommitted 10 ++ [.Begin .Undo_MoveWaypoint 1 .Undo_NeedsCopy 2])).2 =
      some (true, afterCalls (movesCommitted 11)) ∧
    (afterCalls (movesCommitted 11)).1.undoStack =
      [120, 118, 116, 114, 112, 110, 108, 106, 104, 102] ∧
    (afterCalls (movesCommitted 11)).2.actions 100 =
      ⟨.Undo_MoveWaypoint, [101], [.Undo_NeedsCopy], [1], [2]⟩ ∧
    (afterCalls (movesCommitted 11)).2.released = [] :=
  ⟨rfl, rfl, rfl, rfl, rfl, rfl⟩

/-- C19, the code at the failing input: after `Begin` and a second `Begin`
while the transaction is open, the transaction is still open and its candidate
(record 100, which the second call deleted) has 0 `before` entries and 1 mode
tag; the `Commit` that follows puts that record into the history. -/
theorem C19_parallel_sequences_broken :
    (afterCalls beginTwice).1.isInsideUndoableAction = true ∧
    (afterCalls beginTwice).1.candidate = 100 ∧
    ((afterCalls beginTwice).2.actions 100).before.length = 0 ∧
    ((afterCalls beginTwice).2.actions 100).beforeType.length = 1 ∧
    run beginTwiceCommit Undo.new World.blank = some (afterCalls beginTwiceCommit) ∧
    (afterCalls beginTwiceCommit).1.undoStack = [100] ∧
    ((afterCalls beginTwiceCommit).2.actions 100).before.length = 0 ∧
    ((afterCalls beginTwiceCommit).2.actions 100).beforeType.length = 1 :=
  ⟨rfl, rfl, rfl, rfl, rfl, rfl, rfl, rfl⟩

/-- C17 fails as stated: waypoint `1` is moved from (0, 0) to (1, 1) inside a
transaction while its spatial-index entry `2` stays at (0, 0); two applications
of the move replayer on the committed record 100 leave the entry at (1, 1), not
at its original value. -/
theorem C17_counterexample :
    (afterEvents (twoMoves.take 3)).2.actions 100 =
      ⟨.Undo_MoveWaypoint, [101], [.Undo_NeedsCopy], [1], [2]⟩ ∧
    (afterEvents (twoMoves.take 3)).2.selectItems 2 = ⟨0, 0, NULL⟩ ∧
    ((doUndoMoveWaypoint 100 (afterEvents (twoMoves.take 3)).2).bind
        (doUndoMoveWaypoint 100)).map (fun w => w.selectItems 2) =
      some ⟨one, one, NULL⟩ ∧
    ((doUndoMoveWaypoint 100 (afterEvents (twoMoves.take 3)).2).bind
        (doUndoMoveWaypoint 100)).map (fun w => w.selectItems 2) ≠
      some ((afterEvents (twoMoves.take 3)).2.selectItems 2) :=
  ⟨rfl, rfl, rfl, by decide⟩

/-- C17 as amended: on a record whose `after[0]` is waypoint `p`, whose
`before[0]` is snapshot `pt` and whose `selectable[0]` is entry `aux`, one
application of the move replayer exchanges the waypoint's (lat, lon) with the
snapshot's (y, x) and sets the entry to the waypoint's new position; two
applications return the waypoint's position and the snapshot to their original
values and leave the entry at the waypoint's original position, which is the
entry's original value when the entry was at the waypoint's position. -/
theorem C17_move_replayer_swap_amended (c p pt aux : Ptr) (w : World)
    (ha : (w.actions c).after.head? = some p)
    (hb : (w.actions c).before.head? = some pt)
    (hs : (w.actions c).selectable.head? = some aux) :
    ∃ w1 w2, doUndoMoveWaypoint c w = some w1 ∧ doUndoMoveWaypoint c w1 = some w2 ∧
      w1.routePoints p = ⟨(w.realPoints pt).y, (w.realPoints pt).x⟩ ∧
      w1.realPoints pt = ⟨(w.routePoints p).m_lon, (w.routePoints p).m_lat⟩ ∧
      w1.selectItems aux =
        ⟨(w1.routePoints p).m_lat, (w1.routePoints p).m_lon, (w.selectItems aux).m_pData1⟩ ∧
      w2.routePoints p = w.routePoints p ∧
      w2.realPoints pt = w.realPoints pt ∧
      w2.selectItems aux =
        ⟨(w.routePoints p).m_lat, (w.routePoints p).m_lon, (w.selectItems aux).m_pData1⟩ ∧
      ((w.selectItems aux).m_slat = (w.routePoints p).m_lat →
        (w.selectItems aux).m_slon = (w.routePoints p).m_lon →
        w2.selectItems aux = w.selectItems aux) := by
  obtain ⟨w1, h1, hact1, hrp1, hsn1, hsel1⟩ := doUndoMoveWaypoint_swap c p pt aux w ha hb hs
  obtain ⟨w2, h2, _, hrp2, hsn2, hsel2⟩ :=
    doUndoMoveWaypoint_swap c p pt aux w1 (by rw [hact1]; exact ha) (by rw [hact1]; exact hb)
      (by rw [hact1]; exact hs)
  have hsel : w2.selectItems aux =
      ⟨(w.routePoints p).m_lat, (w.routePoints p).m_lon, (w.selectItems aux).m_pData1⟩ := by
    rw [hsel2, hsn1, hsel1]
  refine ⟨w1, w2, h1, h2, hrp1, hsn1, ?_, ?_, ?_, hsel, ?_⟩
  · rw [hsel1, hrp1]
  · rw [hrp2, hsn1]
  · rw [hsn2, hrp1]
  · intro hlat hlon
    rw [hsel, ← hlat, ← hlon]

/-- Witness of C17 as amended: the committed move of waypoint `1`, whose
entry `2` is out of step with it. -/
theorem C17_move_replayer_swap_amended_witness :
    ∃ w1 w2, doUndoMoveWaypoint 100 (afterEvents (twoMoves.take 3)).2 = some w1 ∧
      doUndoMoveWaypoint 100 w1 = some w2 ∧
      w1.routePoints 1 = ⟨((afterEvents (twoMoves.take 3)).2.realPoints 101).y,
        ((afterEvents (twoMoves.take 3)).2.realPoints 101).x⟩ ∧
      w1.realPoints 101 = ⟨((afterEvents (twoMoves.take 3)).2.routePoints 1).m_lon,
        ((afterEvents (twoMoves.take 3)).2.routePoints 1).m_lat⟩ ∧
      w1.selectItems 2 =
        ⟨(w1.routePoints 1).m_lat, (w1.routePoints 1).m_lon,
          ((afterEvents (twoMoves.take 3)).2.selectItems 2).m_pData1⟩ ∧
      w2.routePoints 1 = (afterEvents (twoMoves.take 3)).2.routePoints 1 ∧
      w2.realPoints 101 = (afterEvents (twoMoves.take 3)).2.realPoints 101 ∧
      w2.selectItems 2 =
        ⟨((afterEvents (twoMoves.take 3)).2.routePoints 1).m_lat,
          ((afterEvents (twoMoves.take 3)).2.routePoints 1).m_lon,
          ((afterEvents (twoMoves.take 3)).2.selectItems 2).m_pData1⟩ ∧
      (((afterEvents (twoMoves.take 3)).2.selectItems 2).m_slat =
          ((afterEvents (twoMoves.take 3)).2.routePoints 1).m_lat →
        ((afterEvents (twoMoves.take 3)).2.selectItems 2).m_slon =
          ((afterEvents (twoMoves.take 3)).2.routePoints 1).m_lon →
        w2.selectItems 2 = (afterEvents (twoMoves.take 3)).2.selectItems 2) :=
  C17_move_replayer_swap_amended 100 1 101 2 (afterEvents (twoMoves.take 3)).2 rfl rfl rfl

/-- C18 fails as stated: the candidate of a successful `Begin` with kind
`CreateWaypoint` has one `before` entry (the supplied reference `1`) and one
mode tag, not empty lists. -/
theorem C18_counterexample :
    step (.Begin .Undo_CreateWaypoint 1 .Undo_HasParent 2) Undo.new World.blank =
      some (true, afterCalls [.Begin .Undo_CreateWaypoint 1 .Undo_HasParent 2]) ∧
    (afterCalls [.Begin .Undo_CreateWaypoint 1 .Undo_HasParent 2]).1.candidate = 100 ∧
    ((afterCalls [.Begin .Undo_CreateWaypoint 1 .Undo_HasParent 2]).2.actions 100).before
      = [1] ∧
    ((afterCalls [.Begin .Undo_CreateWaypoint 1 .Undo_HasParent 2]).2.actions 100).before
      ≠ [] ∧
    ((afterCalls [.Begin .Undo_CreateWaypoint 1 .Undo_HasParent 2]).2.actions 100).beforeType
      ≠ [] :=
  ⟨rfl, rfl, rfl, by decide, by decide⟩

/-- C18 as amended: for every successful `Begin` with kind `CreateWaypoint` or
`DeleteWaypoint` (any before reference, any ownership mode), the candidate
record has exactly one `before` entry, the supplied reference itself, and
exactly one mode tag, the supplied mode; nothing is copied (only the record is
allocated, no position snapshot). -/
theorem C18_before_entry_amended (type : UndoType) (before : Ptr)
    (beforeType : UndoBeforePointerType) (selectable : Ptr) (u u1 : Undo) (w w1 : World)
    (ht : type = .Undo_CreateWaypoint ∨ type = .Undo_DeleteWaypoint)
    (h : u.BeforeUndoableAction type before beforeType selectable w = some (true, u1, w1)) :
    (w1.actions u1.candidate).type = type ∧
    (w1.actions u1.candidate).before = [before] ∧
    (w1.actions u1.candidate).beforeType = [beforeType] ∧
    (w1.actions u1.candidate).after = [] ∧
    (w1.actions u1.candidate).selectable = [selectable] ∧
    w1.next = w.next + 1 ∧ w1.realPoints = w.realPoints ∧ w1.routePoints = w.routePoints := by
  obtain ⟨_, _, hu1, _⟩ := BeforeUndoableAction_success _ _ _ _ _ _ _ _ h
  obtain ⟨subject, hrec, _, hplain⟩ := BeforeUndoableAction_record _ _ _ _ _ _ _ _ h
  have hcand : u1.candidate = w.next := by rw [hu1]
  have hnot : ¬ (type = .Undo_MoveWaypoint ∧ beforeType = .Undo_NeedsCopy) := by
    rintro ⟨hm, _⟩
    rcases ht with ht | ht <;> rw [ht] at hm <;> exact absurd hm (by decide)
  obtain ⟨hsub, hnext, hreal⟩ := hplain hnot
  have hrp : w1.routePoints = w.routePoints := by
    obtain ⟨ua, wa, hinv⟩ : ∃ ua wa, u.InvalidateRedo w = some (ua, wa) := by
      cases hinv : u.InvalidateRedo w with
      | none =>
        unfold Undo.BeforeUndoableAction at h
        rw [hinv] at h
        split at h
        · split at h
          · exact absurd h (by simp)
          · simp at h
        · exact absurd h (by simp)
      | some x => exact ⟨x.1, x.2, rfl⟩
    obtain ⟨_, hrp, _⟩ := InvalidateRedo_sameDomain _ _ _ _ hinv
    obtain ⟨wb, hb, _, _, hrpb, _⟩ :=
      BeforeUndoableAction_idle type before beforeType selectable u ua w wa
        (BeforeUndoableAction_success _ _ _ _ _ _ _ _ h).1 hinv
    rw [hb] at h
    simp only [Option.some.injEq, Prod.mk.injEq, true_and] at h
    rw [← h.2, hrpb, hrp]
  rw [hcand, hrec, hsub]
  exact ⟨rfl, rfl, rfl, rfl, rfl, hnext, hreal, hrp⟩

/-- Witness of C18 as amended: `Begin(DeleteWaypoint, 1, Orphaned, 2)` on a
fresh controller. -/
theorem C18_before_entry_amended_witness :
    ((afterCalls [.Begin .Undo_DeleteWaypoint 1 .Undo_IsOrphanded 2]).2.actions
        (afterCalls [.Begin .Undo_DeleteWaypoint 1 .Undo_IsOrphanded 2]).1.candidate).type
      = .Undo_DeleteWaypoint ∧
    ((afterCalls [.Begin .Undo_DeleteWaypoint 1 .Undo_IsOrphanded 2]).2.actions
        (afterCalls [.Begin .Undo_DeleteWaypoint 1 .Undo_IsOrphanded 2]).1.candidate).before
      = [1] ∧
    ((afterCalls [.Begin .Undo_DeleteWaypoint 1 .Undo_IsOrphanded 2]).2.actions
        (afterCalls [.Begin .Undo_DeleteWaypoint 1 .Undo_IsOrphanded 2]).1.candidate).beforeType
      = [.Undo_IsOrphanded] ∧
    ((afterCalls [.Begin .Undo_DeleteWaypoint 1 .Undo_IsOrphanded 2]).2.actions
        (afterCalls [.Begin .Undo_DeleteWaypoint 1 .Undo_IsOrphanded 2]).1.candidate).after
      = [] ∧
    ((afterCalls [.Begin .Undo_DeleteWaypoint 1 .Undo_IsOrphanded 2]).2.actions
        (afterCalls [.Begin .Undo_DeleteWaypoint 1 .Undo_IsOrphanded 2]).1.candidate).selectable
      = [2] ∧
    (afterCalls [.Begin .Undo_DeleteWaypoint 1 .Undo_IsOrphanded 2]).2.next
      = World.blank.next + 1 ∧
    (afterCalls [.Begin .Undo_DeleteWaypoint 1 .Undo_IsOrphanded 2]).2.realPoints
      = World.blank.realPoints ∧
    (afterCalls [.Begin .Undo_DeleteWaypoint 1 .Undo_IsOrphanded 2]).2.routePoints
      = World.blank.routePoints :=
  C18_before_entry_amended .Undo_DeleteWaypoint 1 .Undo_IsOrphanded 2 Undo.new
    (afterCalls [.Begin .Undo_DeleteWaypoint 1 .Undo_IsOrphanded 2]).1 World.blank
    (afterCalls [.Begin .Undo_DeleteWaypoint 1 .Undo_IsOrphanded 2]).2 (Or.inr rfl) rfl

/-- C11 fails as stated: when `pWayPointMan` is `NULL` the replayers skip the
managed waypoint list; after the creation of waypoint `1` is committed, undone
and redone, the waypoint is in the store and in the spatial index again, but it
is not in a managed waypoint list. -/
theorem C11_counterexample :
    run createReplayed Undo.new World.blankNoManager =
      some (afterCallsNoManager createReplayed) ∧
    ((afterCallsNoManager (createReplayed.take 2)).2.actions 100).before.head? = some 1 ∧
    inStore 1 (afterCallsNoManager createReplayed).2 ∧
    inSpatialIndex 1 (afterCallsNoManager createReplayed).2 ∧
    (afterCallsNoManager createReplayed).2.wayPointList = none ∧
    ¬ inWayPointList 1 (afterCallsNoManager createReplayed).2 :=
  ⟨rfl, rfl, by unfold inStore; decide, ⟨101, by decide, rfl⟩, rfl,
    fun ⟨_, h, _⟩ => Option.noConfusion (h : (none : Option (List Ptr)) = some _)⟩

/-- C11 as amended: for a CreateWaypoint record at the cursor whose `before[0]`
is waypoint `pt`, `Undo()` succeeds and leaves `pt` absent from the spatial
index, the persisted store and the managed waypoint list; the following `Redo()`
succeeds and makes the same `pt`, at its unchanged position, present again in
the store and in the spatial index, with a spatial-index entry at its position,
and in the managed waypoint list whenever that list exists (`pWayPointMan` is
not `NULL`); when it does not exist it still does not exist afterwards. -/
theorem C11_create_inverse_amended (u : Undo) (w : World) (c pt : Ptr)
    (hlt : u.stackpointer < u.undoStack.length)
    (hc : u.undoStack.get? u.stackpointer = some c)
    (ht : (w.actions c).type = .Undo_CreateWaypoint)
    (hb : (w.actions c).before.head? = some pt) :
    ∃ w1 w2,
      u.UndoLastAction w = some (true, { u with stackpointer := u.stackpointer + 1 }, w1) ∧
      ¬ inSpatialIndex pt w1 ∧ ¬ inStore pt w1 ∧ ¬ inWayPointList pt w1 ∧
      Undo.RedoNextAction { u with stackpointer := u.stackpointer + 1 } w1 =
        some (true, u, w2) ∧
      (∃ q ∈ w2.selectList,
        w2.selectItems q = ⟨(w.routePoints pt).m_lat, (w.routePoints pt).m_lon, pt⟩) ∧
      inSpatialIndex pt w2 ∧ inStore pt w2 ∧
      w2.routePoints pt = w.routePoints pt ∧
      (w.wayPointList ≠ none → inWayPointList pt w2) ∧
      (w.wayPointList = none → w2.wayPointList = none) := by
  obtain ⟨w1, hd1, hact1, hrp1, hsi1, _, hsl1, hcf1, hwl1⟩ :=
    doRedoDeleteWaypoint_detach c pt w hb
  obtain ⟨w2, hd2, _, hrp2, hsi2, hsl2, hcf2, hwl2⟩ :=
    doUndoDeleteWaypoint_attach c pt w1 (by rw [hact1]; exact hb)
  have hentry : w2.selectItems w1.next =
      ⟨(w.routePoints pt).m_lat, (w.routePoints pt).m_lon, pt⟩ := by
    rw [hsi2, hrp1]
  have hmem : w1.next ∈ w2.selectList := by rw [hsl2]; simp
  refine ⟨w1, w2, ?_, ?_, ?_, ?_, ?_, ⟨_, hmem, hentry⟩, ⟨_, hmem, ?_⟩, ?_, ?_, ?_, ?_⟩
  · rw [UndoLastAction_eq u w c hlt hc]
    simp only [dispatchUndo, ht, hd1, Option.map_some']
  · rintro ⟨q, hq, hdata⟩
    rw [hsl1, List.mem_filter] at hq
    rw [hsi1] at hdata
    simpa [hdata] using hq.2
  · intro hin
    unfold inStore at hin
    rw [hcf1, List.mem_filter] at hin
    simpa using hin.2
  · rintro ⟨l, hl, hin⟩
    rw [hwl1] at hl
    cases hw : w.wayPointList with
    | none => rw [hw] at hl; exact absurd hl (by simp)
    | some l0 =>
      rw [hw] at hl
      simp only [Option.map_some', Option.some.injEq] at hl
      rw [← hl, List.mem_filter] at hin
      simpa using hin.2
  · rw [RedoNextAction_eq { u with stackpointer := u.stackpointer + 1 } w1 c
      (Nat.succ_pos _) (by simpa using hc)]
    simp only [dispatchRedo, hact1, ht, hd2, Option.map_some', Nat.add_sub_cancel]
  · rw [hentry]
  · unfold inStore
    rw [hcf2]
    simp
  · rw [hrp2, hrp1]
  · intro hne
    cases hw : w.wayPointList with
    | none => exact absurd hw hne
    | some l0 =>
      refine ⟨_, by rw [hwl2, hwl1, hw]; rfl, ?_⟩
      simp
  · intro hw
    rw [hwl2, hwl1, hw]
    rfl

/-- Witness of C11 as amended: the creation of waypoint `1` committed on a fresh
controller, in the blank world (whose managed waypoint list exists). -/
theorem C11_create_inverse_amended_witness :
    ∃ w1 w2,
      (afterCalls (createReplayed.take 2)).1.UndoLastAction
          (afterCalls (createReplayed.take 2)).2 =
        some (true, { (afterCalls (createReplayed.take 2)).1 with
          stackpointer := (afterCalls (createReplayed.take 2)).1.stackpointer + 1 }, w1) ∧
      ¬ inSpatialIndex 1 w1 ∧ ¬ inStore 1 w1 ∧ ¬ inWayPointList 1 w1 ∧
      Undo.RedoNextAction { (afterCalls (createReplayed.take 2)).1 with
          stackpointer := (afterCalls (createReplayed.take 2)).1.stackpointer + 1 } w1 =
        some (true, (afterCalls (createReplayed.take 2)).1, w2) ∧
      (∃ q ∈ w2.selectList,
        w2.selectItems q =
          ⟨((afterCalls (createReplayed.take 2)).2.routePoints 1).m_lat,
            ((afterCalls (createReplayed.take 2)).2.routePoints 1).m_lon, 1⟩) ∧
      inSpatialIndex 1 w2 ∧ inStore 1 w2 ∧
      w2.routePoints 1 = (afterCalls (createReplayed.take 2)).2.routePoints 1 ∧
      ((afterCalls (createReplayed.take 2)).2.wayPointList ≠ none → inWayPointList 1 w2) ∧
      ((afterCalls (createReplayed.take 2)).2.wayPointList = none → w2.wayPointList = none) :=
  C11_create_inverse_amended (afterCalls (createReplayed.take 2)).1
    (afterCalls (createReplayed.take 2)).2 100 1 (by decide) rfl rfl rfl

/-- C14 fails as stated: a CreateWaypoint record with an `Orphaned` before
entry (waypoint `1`) is committed and undone, so the waypoint is detached and
only the record refers to it; the new `Begin` removes and releases the record
(100) but releases the waypoint zero times. -/
theorem C14_counterexample :
    (afterCalls (createBranched.take 3)).1.undoStack = [100] ∧
    (afterCalls (createBranched.take 3)).1.stackpointer = 1 ∧
    (afterCalls (createBranched.take 3)).2.actions 100 =
      ⟨.Undo_CreateWaypoint, [1], [.Undo_IsOrphanded], [1], [2]⟩ ∧
    step (.Begin .Undo_MoveWaypoint 5 .Undo_NeedsCopy 6)
        (afterCalls (createBranched.take 3)).1 (afterCalls (createBranched.take 3)).2 =
      some (true, afterCalls createBranched) ∧
    (afterCalls createBranched).1.undoStack = [] ∧
    (afterCalls createBranched).2.released = [Released.action 100] ∧
    (afterCalls createBranched).2.released.count (Released.routePoint 1) = 0 :=
  ⟨rfl, rfl, rfl, rfl, rfl, rfl, by decide⟩

/-- C14 as amended: with cursor 1 and, at index 0, a record `r` that has one
non-null `before` entry `b` with mode tag `t`, a new `Begin` called while idle
succeeds, removes `r` from the history and appends to the release log exactly:
the position snapshot `b` once if `r` is a Move record with tag `NeedsCopy`
(CopyOwned), nothing for the before entry otherwise (whatever the kind and the
tag, `Orphaned` included), and then the record `r` itself once. -/
theorem C14_branch_release_amended (type : UndoType) (before : Ptr)
    (beforeType : UndoBeforePointerType) (selectable : Ptr) (u : Undo) (w : World)
    (r b : Ptr) (t : UndoBeforePointerType) (rest : List Ptr)
    (hf : u.isInsideUndoableAction = false) (hs : u.stackpointer = 1)
    (hst : u.undoStack = r :: rest) (hr : r ≠ NULL)
    (hb : (w.actions r).before = [b]) (ht : (w.actions r).beforeType = [t])
    (hbn : b ≠ NULL) :
    ∃ u1 w1, u.BeforeUndoableAction type before beforeType selectable w = some (true, u1, w1) ∧
      u1.undoStack = rest ∧ u1.stackpointer = 0 ∧
      w1.released = w.released ++
        (if (w.actions r).type = .Undo_MoveWaypoint ∧ t = .Undo_NeedsCopy
         then [Released.realPoint b] else []) ++ [Released.action r] := by
  obtain ⟨wa, hloop, hrel⟩ := invalidateLoop_single r b t w hr hb ht hbn
  have hinv : u.InvalidateRedo w =
      some ({ u with undoStack := u.undoStack.drop u.stackpointer, stackpointer := 0 }, wa) := by
    unfold Undo.InvalidateRedo
    rw [if_neg (by rw [hs]; decide), if_pos (by rw [hs, hst]; simp)]
    have htake : List.take u.stackpointer u.undoStack = [r] := by rw [hs, hst]; rfl
    rw [htake, hloop]
  obtain ⟨w1, hbegin, _, hrel1, _⟩ :=
    BeforeUndoableAction_idle type before beforeType selectable u _ w wa hf hinv
  refine ⟨_, w1, hbegin, ?_, rfl, ?_⟩
  · show List.drop u.stackpointer u.undoStack = rest
    rw [hs, hst]; rfl
  · rw [hrel1, hrel]

/-- Witness of C14 as amended: a committed and undone move (record 100 with
snapshot 101), then a new `Begin`. -/
theorem C14_branch_release_amended_witness :
    ∃ u1 w1,
      (afterCalls moveUndone).1.BeforeUndoableAction .Undo_CreateWaypoint 3 .Undo_HasParent 4
          (afterCalls moveUndone).2 = some (true, u1, w1) ∧
      u1.undoStack = [] ∧ u1.stackpointer = 0 ∧
      w1.released = (afterCalls moveUndone).2.released ++
        (if ((afterCalls moveUndone).2.actions 100).type = .Undo_MoveWaypoint ∧
            UndoBeforePointerType.Undo_NeedsCopy = .Undo_NeedsCopy
         then [Released.realPoint 101] else []) ++ [Released.action 100] :=
  C14_branch_release_amended .Undo_CreateWaypoint 3 .Undo_HasParent 4
    (afterCalls moveUndone).1 (afterCalls moveUndone).2 100 101 .Undo_NeedsCopy []
    rfl rfl rfl (by decide) rfl rfl (by decide)

/-- C20, replayer indexing is safe: in every state reached from a freshly
constructed controller by Begin, Commit, Undo, Redo and ClearAll calls among
which no `Begin` is issued while a transaction is open, every record in the
history has exactly one `before` entry, one mode tag, one `after` entry and one
`selectable` entry, and the cursor is within the history; so the `[0]` reads of
the replayers find their entries, `undoStack[cursor]` and `undoStack[cursor-1]`
exist when `Undo()` / `Redo()` pass their guard, and `Undo()`, `Redo()` and
`InvalidateRedo()` all run to a result (no index out of range). -/
theorem C20_replayer_indexing_safe (calls : List Call) (w0 : World) (u : Undo) (w : World)
    (hrun : run calls Undo.new w0 = some (u, w))
    (hidle : idleBegins calls Undo.new w0 = true) :
    (∀ p ∈ u.undoStack,
      (w.actions p).before.length = 1 ∧ (w.actions p).beforeType.length = 1 ∧
      (w.actions p).after.length = 1 ∧ (w.actions p).selectable.length = 1) ∧
    (∀ p ∈ u.undoStack, hasEntries (w.actions p) = true) ∧
    u.stackpointer ≤ u.undoStack.length ∧
    (u.AnythingToUndo = true → ∃ a, u.GetNextUndoableAction = some a ∧ a ∈ u.undoStack) ∧
    (u.AnythingToRedo = true → ∃ a, u.GetNextRedoableAction = some a ∧ a ∈ u.undoStack) ∧
    (∃ res, u.UndoLastAction w = some res) ∧
    (∃ res, u.RedoNextAction w = some res) ∧
    (∃ res, u.InvalidateRedo w = some res) := by
  obtain ⟨⟨hn, _, _⟩, hsp, hfull, _⟩ :=
    run_safeInv calls Undo.new u w0 w hrun hidle (safeInv_new w0)
  have hentries : ∀ p ∈ u.undoStack, hasEntries (w.actions p) = true :=
    fun p hp => fullRecord_hasEntries _ (hfull p hp)
  have hundoGet : u.stackpointer < u.undoStack.length →
      ∃ a, u.undoStack.get? u.stackpointer = some a ∧ a ∈ u.undoStack :=
    fun hlt => ⟨_, List.get?_eq_get hlt, List.get_mem _ _ _⟩
  have hredoGet : 0 < u.stackpointer →
      ∃ a, u.undoStack.get? (u.stackpointer - 1) = some a ∧ a ∈ u.undoStack := by
    intro hpos
    have hlt : u.stackpointer - 1 < u.undoStack.length := by omega
    exact ⟨_, List.get?_eq_get hlt, List.get_mem _ _ _⟩
  refine ⟨hfull, hentries, hsp, ?_, ?_, ?_, ?_, ?_⟩
  · intro ha
    simp only [Undo.AnythingToUndo, gt_iff_lt, decide_eq_true_eq] at ha
    exact hundoGet ha
  · intro ha
    simp only [Undo.AnythingToRedo, gt_iff_lt, decide_eq_true_eq] at ha
    obtain ⟨a, hget, hmem⟩ := hredoGet ha
    refine ⟨a, ?_, hmem⟩
    unfold Undo.GetNextRedoableAction
    rw [if_neg (Nat.pos_iff_ne_zero.mp ha)]
    exact hget
  · rcases Nat.lt_or_ge u.stackpointer u.undoStack.length with hlt | hge
    · obtain ⟨a, hget, hmem⟩ := hundoGet hlt
      obtain ⟨w1, hw1⟩ := dispatchUndo_defined a w (hentries a hmem)
      exact ⟨_, by rw [UndoLastAction_eq u w a hlt hget, hw1]; rfl⟩
    · exact ⟨_, UndoLastAction_nothing u w hge⟩
  · rcases Nat.eq_zero_or_pos u.stackpointer with h0 | hpos
    · exact ⟨_, RedoNextAction_nothing u w h0⟩
    · obtain ⟨a, hget, hmem⟩ := hredoGet hpos
      obtain ⟨w1, hw1⟩ := dispatchRedo_defined a w (hentries a hmem)
      exact ⟨_, by rw [RedoNextAction_eq u w a hpos hget, hw1]; rfl⟩
  · unfold Undo.InvalidateRedo
    by_cases h0 : u.stackpointer = 0
    · exact ⟨_, by rw [if_pos h0]⟩
    · obtain ⟨w1, hw1⟩ := invalidateLoop_defined (u.undoStack.take u.stackpointer) w
        (hn.sublist (List.take_sublist _ _))
        (fun p hp => ⟨(hfull p (List.mem_of_mem_take hp)).1,
          (hfull p (List.mem_of_mem_take hp)).2.1⟩)
      exact ⟨_, by rw [if_neg h0, if_pos hsp, hw1]⟩

/-- Witness of C20: a run with a creation, a move and a deletion, undone and
redone in part, a branch and one more undo; it ends with three records in the
history and the cursor at 1. -/
theorem C20_replayer_indexing_safe_witness :
    (afterCalls mixedRun).1.undoStack = [105, 101, 100] ∧
    (afterCalls mixedRun).1.stackpointer = 1 ∧
    ((∀ p ∈ (afterCalls mixedRun).1.undoStack,
      ((afterCalls mixedRun).2.actions p).before.length = 1 ∧
      ((afterCalls mixedRun).2.actions p).beforeType.length = 1 ∧
      ((afterCalls mixedRun).2.actions p).after.length = 1 ∧
      ((afterCalls mixedRun).2.actions p).selectable.length = 1) ∧
    (∀ p ∈ (afterCalls mixedRun).1.undoStack,
      hasEntries ((afterCalls mixedRun).2.actions p) = true) ∧
    (afterCalls mixedRun).1.stackpointer ≤ (afterCalls mixedRun).1.undoStack.length ∧
    ((afterCalls mixedRun).1.AnythingToUndo = true →
      ∃ a, (afterCalls mixedRun).1.GetNextUndoableAction = some a ∧
        a ∈ (afterCalls mixedRun).1.undoStack) ∧
    ((afterCalls mixedRun).1.AnythingToRedo = true →
      ∃ a, (afterCalls mixedRun).1.GetNextRedoableAction = some a ∧
        a ∈ (afterCalls mixedRun).1.undoStack) ∧
    (∃ res, (afterCalls mixedRun).1.UndoLastAction (afterCalls mixedRun).2 = some res) ∧
    (∃ res, (afterCalls mixedRun).1.RedoNextAction (afterCalls mixedRun).2 = some res) ∧
    (∃ res, (afterCalls mixedRun).1.InvalidateRedo (afterCalls mixedRun).2 = some res)) :=
  ⟨rfl, rfl,
    C20_replayer_indexing_safe mixedRun World.blank (afterCalls mixedRun).1
      (afterCalls mixedRun).2 rfl rfl⟩

end OpenCPN
